import Mathlib

/-! # Configuration parameter cells of `include/nccl_ofi_param.h`

A shallow embedding of the two accessor macros `OFI_NCCL_PARAM_INT` and
`OFI_NCCL_PARAM_STR` and of the seven parameters declared with them.

Conventions of the embedding.

* A C string is the list of its characters before the terminating NUL; the
  end of the list stands for the terminator, so `*p != 0` reads "the rest at
  `p` is not empty" and `strlen` is the length of the list.
* `int64_t` values are integers of `Int`; every value the accessor stores comes
  out of `strtoll`, which stays inside the 64-bit range.
* The function-local statics `initialized` and `value` and the mutex
  `ofi_nccl_param_lock_<name>` form the state of a cell, passed explicitly.
* The process environment is a function from variable names to optional
  values, the heap is a flag telling whether `strdup` finds storage.
* A call returns, next to its result and the new cell state, the list of the
  externally visible operations it performed, in program order.
-/

namespace OfiNcclParam

/-! ## The C library functions the accessors call -/

/-- Largest value of `long long` (and of `int64_t`). -/
def LLONG_MAX : Int := 2 ^ 63 - 1

/-- Smallest value of `long long` (and of `int64_t`). -/
def LLONG_MIN : Int := -(2 ^ 63)

/-- Value of `errno` after a range error. -/
def ERANGE : Nat := 34

/-- The C-locale white-space class of `isspace`: space, and the controls
tab, newline, vertical tab, form feed, carriage return (codes 9 to 13). -/
def isspace (c : Char) : Bool :=
  c.toNat == 32 || (9 ≤ c.toNat && c.toNat ≤ 13)

/-- Value of a character as a digit of `strtoll`: `0`-`9` are 0 to 9, letters
of either case are 10 to 35, anything else is no digit. -/
def digitVal (c : Char) : Option Nat :=
  let n := c.toNat
  if 48 ≤ n ∧ n ≤ 57 then some (n - 48)
  else if 97 ≤ n ∧ n ≤ 122 then some (n - 97 + 10)
  else if 65 ≤ n ∧ n ≤ 90 then some (n - 65 + 10)
  else none

/-- Digit of the given base: a digit whose value is below the base. -/
def digitIn (base : Nat) (c : Char) : Option Nat :=
  match digitVal c with
  | some d => if d < base then some d else none
  | none => none

/-- The digit loop of `strtoll`: reads digits of the base as long as there are
any, accumulating the value; returns the value read and the number of
characters consumed. -/
def scanDigits (base : Nat) : List Char → Nat → Nat → Nat × Nat
  | [], acc, k => (acc, k)
  | c :: cs, acc, k =>
    match digitIn base c with
    | some d => scanDigits base cs (acc * base + d) (k + 1)
    | none => (acc, k)

/-- What a call of `strtoll(str, &endptr, 0)` leaves behind: the returned
value, the offset of `endptr` from `str`, and `errno`. -/
structure StrtollResult where
  val : Int
  endptr : Nat
  errno : Nat
  deriving DecidableEq, Repr

/-- Sign part of the subject sequence: whether it is negative and how many
characters the sign takes. -/
def scanSign : List Char → Bool × Nat
  | '-' :: _ => (true, 1)
  | '+' :: _ => (false, 1)
  | _ => (false, 0)

/-- Base detection of base 0: `0x` or `0X` in front of a hexadecimal digit
selects base 16 and is skipped, any other leading `0` selects base 8 (the zero
is then read as a digit), everything else is decimal. Returns the base and the
length of the prefix skipped. -/
def scanBase : List Char → Nat × Nat
  | '0' :: x :: h :: _ =>
    if (x = 'x' ∨ x = 'X') ∧ (digitIn 16 h).isSome then (16, 2) else (8, 0)
  | '0' :: _ => (8, 0)
  | _ => (10, 0)

/-- The part of `strtoll` after white space and sign: base detection, digit
loop and range check, for a subject `t` that starts `off` characters into the
string and carries the sign `neg`. Without any digit no conversion is
performed: the value is 0 and `endptr` is the start of the string. A value
outside the range of `long long` gives `LLONG_MAX` or `LLONG_MIN` and sets
`errno` to `ERANGE`, with `endptr` after the last digit. -/
def convert (neg : Bool) (t : List Char) (off errno : Nat) : StrtollResult :=
  let bs := scanBase t
  let dg := scanDigits bs.1 (t.drop bs.2) 0 0
  if dg.2 = 0 then
    { val := 0, endptr := 0, errno := errno }
  else
    let e := off + bs.2 + dg.2
    if neg then
      if (2 : Int) ^ 63 < dg.1 then { val := LLONG_MIN, endptr := e, errno := ERANGE }
      else { val := -(dg.1 : Int), endptr := e, errno := errno }
    else
      if (2 : Int) ^ 63 - 1 < dg.1 then { val := LLONG_MAX, endptr := e, errno := ERANGE }
      else { val := (dg.1 : Int), endptr := e, errno := errno }

/-- The library function `strtoll(nptr, &endptr, 0)` in the C locale, after
ISO C 7.22.1.4 as it stands up to C17, without the binary prefix of C23 (it is
not code of this repository): skip white space, take an optional sign, then
convert the longest run of digits of the detected base. The second argument is
`errno` before the call. -/
def strtoll (nptr : List Char) (errno : Nat) : StrtollResult :=
  let ws := (nptr.takeWhile isspace).length
  let s1 := nptr.drop ws
  let sg := scanSign s1
  convert sg.1 (s1.drop sg.2) (ws + sg.2) errno

/-- The library function `strlen` on a C string. -/
def strlen (s : String) : Nat := s.data.length

/-- The library function `strdup`: a copy of the string in new storage, or the
null pointer when the heap has no storage left. -/
def strdup (heap_ok : Bool) (s : String) : Option String :=
  if heap_ok then some s else none

/-- The library function `pthread_mutex_lock` on a default mutex, seen from a
single thread of control: it takes a free mutex, and on a held one it blocks,
so the call does not return (`none`). The mutex is `true` when held. -/
def pthread_mutex_lock (held : Bool) : Option Bool :=
  if held then none else some true

/-- The library function `pthread_mutex_unlock`: the mutex is free afterwards. -/
def pthread_mutex_unlock (_held : Bool) : Bool := false

/-! ## Diagnostics -/

/-- An argument handed to the logging call after the format. -/
inductive Arg where
  | str (s : String)
  | i64 (v : Int)
  deriving DecidableEq, Repr

/-- What a call does that is visible from outside, in program order: taking
and releasing the mutex, looking a variable up with `getenv`, and a call of the
logging macro `NCCL_OFI_INFO(NCCL_INIT | NCCL_NET, fmt, args...)`, recorded
with its format and arguments. -/
inductive Event where
  | lock
  | unlock
  | getenv (key : String)
  | info (fmt : String) (args : List Arg)
  deriving DecidableEq, Repr

/-- Format of the diagnostic of a rejected integer value (line 34). -/
def FMT_INVALID : String :=
  "Invalid value %s provided for %s environment variable, using default %lu"

/-- Format of the diagnostic of an adopted integer value (line 38). -/
def FMT_SET_INT : String := "Setting %s environment variable to %lu"

/-- Format of the diagnostic of an adopted string value (line 63). -/
def FMT_SET_STR : String := "Setting %s environment variable to %s"

/-- Format of the diagnostic of a failed copy (line 68). -/
def FMT_ALLOC : String :=
  "Allocation error saving result for %s environment variable.  Falling back to default %s"

/-- Modelled from the spec: the logging macro `NCCL_OFI_INFO` is defined in
`nccl_ofi_log.h`, which is not among the sources; the spec has it emit a
formatted message. The message is formatted the way the `printf` family
expands the two conversions the formats use: `%s` inserts a string argument,
`%lu` prints its argument as an unsigned 64-bit number in decimal (a 64-bit
signed argument is read modulo `2 ^ 64`). -/
def vformat : List Char → List Arg → List Char
  | [], _ => []
  | '%' :: 's' :: f, Arg.str s :: as => s.data ++ vformat f as
  | '%' :: 'l' :: 'u' :: f, Arg.i64 v :: as =>
    (Nat.repr (v % 2 ^ 64).toNat).data ++ vformat f as
  | c :: f, as => c :: vformat f as

/-- Text of a diagnostic. -/
def Event.text : Event → Option String
  | Event.info fmt args => some (String.mk (vformat fmt.data args))
  | _ => none

/-- The diagnostics among the operations of a call. -/
def diagnostics (tr : List Event) : List Event :=
  tr.filter fun e => match e with
    | Event.info _ _ => true
    | _ => false

/-- The environment lookups among the operations of a call. -/
def lookups (tr : List Event) : List String :=
  tr.filterMap fun e => match e with
    | Event.getenv k => some k
    | _ => none

/-! ## The world around a call -/

/-- Process environment (`getenv`) and heap (whether `strdup` finds storage)
at the time of a call. -/
structure World where
  getenv : String → Option String
  heap_ok : Bool

/-- What a returning call leaves: its return value, the cell afterwards and
the operations performed. -/
structure Outcome (α σ : Type) where
  ret : α
  cell : σ
  trace : List Event

/-! ## `OFI_NCCL_PARAM_INT` -/

/-- A use of the macro `OFI_NCCL_PARAM_INT(name, env, default_value)`. -/
structure OFI_NCCL_PARAM_INT where
  name : String
  env : String
  default_value : Int

/-- State of an integer cell: the statics `initialized` and `value` of the
accessor and its mutex `ofi_nccl_param_lock_<name>` (`true` when held). -/
structure IntCell where
  initialized : Bool
  value : Int
  lock : Bool
  deriving DecidableEq, Repr

/-- The cell at program start (lines 17, 19, 20). -/
def OFI_NCCL_PARAM_INT.init (p : OFI_NCCL_PARAM_INT) : IntCell :=
  { initialized := false, value := p.default_value, lock := false }

/-- Name of the environment variable: the literal `"OFI_NCCL_" env`. -/
def OFI_NCCL_PARAM_INT.key (p : OFI_NCCL_PARAM_INT) : String := "OFI_NCCL_" ++ p.env

/-- The section of the integer accessor between taking and releasing the mutex
(lines 25 to 43). -/
def OFI_NCCL_PARAM_INT.locked (p : OFI_NCCL_PARAM_INT) (w : World) (c : IntCell) : IntCell × List Event :=
  if !c.initialized then
    let str := w.getenv p.key
    let r : IntCell × List Event :=
      match str with
      | some s =>
        if strlen s > 0 then
          let t := strtoll s.data 0
          if t.errno ≠ 0 ∨ t.endptr = 0 ∨ s.data.drop t.endptr ≠ [] then
            (c, [Event.info FMT_INVALID [Arg.str s, Arg.str p.key, Arg.i64 c.value]])
          else
            ({ c with value := t.val },
             [Event.info FMT_SET_INT [Arg.str p.key, Arg.i64 t.val]])
        else (c, [])
      | none => (c, [])
    ({ r.1 with initialized := true }, Event.getenv p.key :: r.2)
  else (c, [])

/-- The accessor `int64_t ofi_nccl_<name>()` generated by `OFI_NCCL_PARAM_INT`
(lines 18 to 46). -/
def OFI_NCCL_PARAM_INT.get (p : OFI_NCCL_PARAM_INT) (w : World) (c : IntCell) : Option (Outcome Int IntCell) :=
  if c.initialized then
    some { ret := c.value, cell := c, trace := [] }
  else
    match pthread_mutex_lock c.lock with
    | none => none
    | some l =>
      let r := p.locked w { c with lock := l }
      let c2 : IntCell := { r.1 with lock := pthread_mutex_unlock r.1.lock }
      some { ret := c2.value, cell := c2, trace := Event.lock :: r.2 ++ [Event.unlock] }

/-! ## `OFI_NCCL_PARAM_STR` -/

/-- A use of the macro `OFI_NCCL_PARAM_STR(name, env, default_value)`. -/
structure OFI_NCCL_PARAM_STR where
  name : String
  env : String
  default_value : String

/-- State of a string cell; `value` is a pointer to a C string, `none` being
the null pointer. -/
structure StrCell where
  initialized : Bool
  value : Option String
  lock : Bool
  deriving DecidableEq, Repr

/-- The cell at program start (lines 49, 51, 52). -/
def OFI_NCCL_PARAM_STR.init (p : OFI_NCCL_PARAM_STR) : StrCell :=
  { initialized := false, value := some p.default_value, lock := false }

/-- Name of the environment variable: the literal `"OFI_NCCL_" env`. -/
def OFI_NCCL_PARAM_STR.key (p : OFI_NCCL_PARAM_STR) : String := "OFI_NCCL_" ++ p.env

/-- Argument of a `%s` conversion given a pointer (a null pointer is printed
as `(null)`; the accessor never passes one). -/
def Arg.ofPtr : Option String → Arg
  | some s => Arg.str s
  | none => Arg.str "(null)"

/-- The section of the string accessor between taking and releasing the mutex
(lines 57 to 73). -/
def OFI_NCCL_PARAM_STR.locked (p : OFI_NCCL_PARAM_STR) (w : World) (c : StrCell) : StrCell × List Event :=
  if !c.initialized then
    let str := w.getenv p.key
    let r : StrCell × List Event :=
      match str with
      | some s =>
        let c1 : StrCell := { c with value := strdup w.heap_ok s }
        if c1.value.isSome then
          (c1, [Event.info FMT_SET_STR [Arg.str p.key, Arg.ofPtr c1.value]])
        else
          let c2 : StrCell := { c1 with value := some p.default_value }
          (c2, [Event.info FMT_ALLOC [Arg.str p.key, Arg.ofPtr c2.value]])
      | none => (c, [])
    ({ r.1 with initialized := true }, Event.getenv p.key :: r.2)
  else (c, [])

/-- The accessor `const char *ofi_nccl_<name>()` generated by
`OFI_NCCL_PARAM_STR` (lines 50 to 76). -/
def OFI_NCCL_PARAM_STR.get (p : OFI_NCCL_PARAM_STR) (w : World) (c : StrCell) :
    Option (Outcome (Option String) StrCell) :=
  if c.initialized then
    some { ret := c.value, cell := c, trace := [] }
  else
    match pthread_mutex_lock c.lock with
    | none => none
    | some l =>
      let r := p.locked w { c with lock := l }
      let c2 : StrCell := { r.1 with lock := pthread_mutex_unlock r.1.lock }
      some { ret := c2.value, cell := c2, trace := Event.lock :: r.2 ++ [Event.unlock] }

/-! ## The declared parameters (lines 82 to 128) -/

/-- Line 82. -/
def use_ipv6_tcp : OFI_NCCL_PARAM_INT := ⟨"use_ipv6_tcp", "USE_IPV6_TCP", 0⟩

/-- Line 90. -/
def exclude_tcp_if : OFI_NCCL_PARAM_STR := ⟨"exclude_tcp_if", "EXCLUDE_TCP_IF", "lo,docker0"⟩

/-- Line 99. -/
def gdr_flush_disable : OFI_NCCL_PARAM_INT := ⟨"gdr_flush_disable", "GDR_FLUSH_DISABLE", 0⟩

/-- Line 106. -/
def nic_dup_conns : OFI_NCCL_PARAM_INT := ⟨"nic_dup_conns", "NIC_DUP_CONNS", 0⟩

/-- Line 116. -/
def cuda_flush_enable : OFI_NCCL_PARAM_INT := ⟨"cuda_flush_enable", "CUDA_FLUSH_ENABLE", 0⟩

/-- Line 122. -/
def mr_key_size : OFI_NCCL_PARAM_INT := ⟨"mr_key_size", "MR_KEY_SIZE", 2⟩

/-- Line 128. -/
def cq_read_count : OFI_NCCL_PARAM_INT := ⟨"cq_read_count", "CQ_READ_COUNT", 4⟩

/-- The accessor `ofi_nccl_use_ipv6_tcp()`. -/
def ofi_nccl_use_ipv6_tcp := use_ipv6_tcp.get

/-- The accessor `ofi_nccl_exclude_tcp_if()`. -/
def ofi_nccl_exclude_tcp_if := exclude_tcp_if.get

/-- The accessor `ofi_nccl_gdr_flush_disable()`. -/
def ofi_nccl_gdr_flush_disable := gdr_flush_disable.get

/-- The accessor `ofi_nccl_nic_dup_conns()`. -/
def ofi_nccl_nic_dup_conns := nic_dup_conns.get

/-- The accessor `ofi_nccl_cuda_flush_enable()`. -/
def ofi_nccl_cuda_flush_enable := cuda_flush_enable.get

/-- The accessor `ofi_nccl_mr_key_size()`. -/
def ofi_nccl_mr_key_size := mr_key_size.get

/-- The accessor `ofi_nccl_cq_read_count()`. -/
def ofi_nccl_cq_read_count := cq_read_count.get

/-- An environment holding exactly one variable. -/
def env1 (key val : String) : String → Option String :=
  fun k => if k = key then some val else none

/-- The empty environment. -/
def env0 : String → Option String := fun _ => none

/-! ## Sequences of calls -/

/-- Successive calls of an integer accessor, one per world of the list (the
environment may change between calls): the values returned, the cell after
each call and the operations of each call; `none` when a call does not
return. -/
def OFI_NCCL_PARAM_INT.calls (p : OFI_NCCL_PARAM_INT) : List World → IntCell → Option (List (Outcome Int IntCell))
  | [], _ => some []
  | w :: ws, c =>
    match p.get w c with
    | none => none
    | some o =>
      match OFI_NCCL_PARAM_INT.calls p ws o.cell with
      | none => none
      | some os => some (o :: os)

/-- Successive calls of a string accessor, one per world of the list. -/
def OFI_NCCL_PARAM_STR.calls (p : OFI_NCCL_PARAM_STR) :
    List World → StrCell → Option (List (Outcome (Option String) StrCell))
  | [], _ => some []
  | w :: ws, c =>
    match p.get w c with
    | none => none
    | some o =>
      match OFI_NCCL_PARAM_STR.calls p ws o.cell with
      | none => none
      | some os => some (o :: os)

/-! ## The notions the specification uses, stated on their own -/

/-- Every character of the list is a digit of the base. -/
def allDigits (base : Nat) (cs : List Char) : Bool :=
  cs.all fun c => (digitIn base c).isSome

/-- Mathematical value of a digit string in a base, most significant digit
first: the sum of `digit * base ^ position`. -/
def digitsValue (base : Nat) (cs : List Char) : Nat :=
  Nat.ofDigits base ((cs.map fun c => (digitVal c).getD 0).reverse)

/-- Value of an unsigned base-0 integer literal, `none` when the string is not
one: `0x` or `0X` followed by at least one hexadecimal digit, or a leading `0`
followed by octal digits, or decimal digits not starting with `0`. -/
def literalBody : List Char → Option Nat
  | [] => none
  | c :: t =>
    if c = '0' then
      match t with
      | [] => some 0
      | x :: hs =>
        if x = 'x' ∨ x = 'X' then
          if hs ≠ [] ∧ allDigits 16 hs then some (digitsValue 16 hs) else none
        else if allDigits 8 t then some (digitsValue 8 t) else none
    else if allDigits 10 (c :: t) then some (digitsValue 10 (c :: t)) else none

/-- Mathematical value of a well-formed base-0 integer literal with an
optional sign, `none` when the string is not one. -/
def base0Value : List Char → Option Int
  | '+' :: t => (literalBody t).map fun (n : Nat) => (n : Int)
  | '-' :: t => (literalBody t).map fun (n : Nat) => -(n : Int)
  | t => (literalBody t).map fun (n : Nat) => (n : Int)

/-- A decimal digit character. -/
def isdigit (c : Char) : Bool := 48 ≤ c.toNat && c.toNat ≤ 57

/-- The string without one optional leading sign. -/
def afterSign : List Char → List Char
  | '+' :: t => t
  | '-' :: t => t
  | t => t

/-- Some non-empty initial segment of `r` extends the literal `lit` to a longer
well-formed literal. -/
def extendsLiteral (lit r : List Char) : Bool :=
  r.inits.any fun q => !q.isEmpty && (base0Value (lit ++ q)).isSome

/-- No integer can be converted from the string at all: after leading white
space and one optional sign there is no digit. -/
def noConversion (s : List Char) : Bool :=
  match afterSign (s.dropWhile isspace) with
  | [] => true
  | c :: _ => !isdigit c


/-- The value the integer accessor is to adopt from a string, as the
specification words it: the value of the well-formed base-0 literal that remains
after leading white space, provided it fits the 64-bit signed range; `none`
when the string does not parse. -/
def parsedValue (s : List Char) : Option Int :=
  match base0Value (s.dropWhile isspace) with
  | some v => if -(2 : Int) ^ 63 ≤ v ∧ v ≤ 2 ^ 63 - 1 then some v else none
  | none => none

/-! ## The path behind the first test of the flag -/

/-- The integer accessor from the point where the first test of `initialized`
has failed (lines 24 to 45): take the mutex, run the locked section with its
own test of the flag, release the mutex, return `value`. -/
def OFI_NCCL_PARAM_INT.slow (p : OFI_NCCL_PARAM_INT) (w : World) (c : IntCell) :
    Option (Outcome Int IntCell) :=
  match pthread_mutex_lock c.lock with
  | none => none
  | some l =>
    let r := p.locked w { c with lock := l }
    let c2 : IntCell := { r.1 with lock := pthread_mutex_unlock r.1.lock }
    some { ret := c2.value, cell := c2, trace := Event.lock :: r.2 ++ [Event.unlock] }

/-- The string accessor from the point where the first test of `initialized`
has failed (lines 56 to 75). -/
def OFI_NCCL_PARAM_STR.slow (p : OFI_NCCL_PARAM_STR) (w : World) (c : StrCell) :
    Option (Outcome (Option String) StrCell) :=
  match pthread_mutex_lock c.lock with
  | none => none
  | some l =>
    let r := p.locked w { c with lock := l }
    let c2 : StrCell := { r.1 with lock := pthread_mutex_unlock r.1.lock }
    some { ret := c2.value, cell := c2, trace := Event.lock :: r.2 ++ [Event.unlock] }

/-- The mutex operations among the operations of a call. -/
def lockOps (tr : List Event) : List Event :=
  tr.filter fun e => match e with
    | Event.lock => true
    | Event.unlock => true
    | _ => false

/-- The operations of a call other than its diagnostics. -/
def withoutDiagnostics (tr : List Event) : List Event :=
  tr.filter fun e => match e with
    | Event.info _ _ => false
    | _ => true

/-- The text `needle` occurs in the text `hay`. -/
def containsText (hay needle : List Char) : Bool :=
  hay.tails.any fun t => needle.isPrefixOf t

/-! ## All the cells of the header together -/

/-- The parameters declared in the header. -/
inductive ParamId where
  | use_ipv6_tcp
  | exclude_tcp_if
  | gdr_flush_disable
  | nic_dup_conns
  | cuda_flush_enable
  | mr_key_size
  | cq_read_count
  deriving DecidableEq, Repr

/-- The state of the program as far as the header goes: for each declared
parameter the statics of its accessor and its mutex. -/
structure Registry where
  st_use_ipv6_tcp : IntCell
  st_exclude_tcp_if : StrCell
  st_gdr_flush_disable : IntCell
  st_nic_dup_conns : IntCell
  st_cuda_flush_enable : IntCell
  st_mr_key_size : IntCell
  st_cq_read_count : IntCell
  deriving DecidableEq, Repr

/-- The state at program start. -/
def Registry.init : Registry :=
  { st_use_ipv6_tcp := OfiNcclParam.use_ipv6_tcp.init
    st_exclude_tcp_if := OfiNcclParam.exclude_tcp_if.init
    st_gdr_flush_disable := OfiNcclParam.gdr_flush_disable.init
    st_nic_dup_conns := OfiNcclParam.nic_dup_conns.init
    st_cuda_flush_enable := OfiNcclParam.cuda_flush_enable.init
    st_mr_key_size := OfiNcclParam.mr_key_size.init
    st_cq_read_count := OfiNcclParam.cq_read_count.init }

/-- The state of one cell, integer or string. -/
inductive Cell where
  | int (c : IntCell)
  | str (c : StrCell)
  deriving DecidableEq, Repr

/-- A value returned by an accessor, `int64_t` or `const char *`. -/
inductive Value where
  | int (v : Int)
  | str (v : Option String)
  deriving DecidableEq, Repr

/-- The cell of a parameter in the program state. -/
def Registry.cell (σ : Registry) : ParamId → Cell
  | ParamId.use_ipv6_tcp => Cell.int σ.st_use_ipv6_tcp
  | ParamId.exclude_tcp_if => Cell.str σ.st_exclude_tcp_if
  | ParamId.gdr_flush_disable => Cell.int σ.st_gdr_flush_disable
  | ParamId.nic_dup_conns => Cell.int σ.st_nic_dup_conns
  | ParamId.cuda_flush_enable => Cell.int σ.st_cuda_flush_enable
  | ParamId.mr_key_size => Cell.int σ.st_mr_key_size
  | ParamId.cq_read_count => Cell.int σ.st_cq_read_count

/-- A call of the accessor of a parameter on the program state: the accessor
works on its own statics and mutex. Returns the value and the new state. -/
def Registry.call (σ : Registry) (w : World) : ParamId → Option (Value × Registry)
  | ParamId.use_ipv6_tcp =>
    (ofi_nccl_use_ipv6_tcp w σ.st_use_ipv6_tcp).map fun o =>
      (Value.int o.ret, { σ with st_use_ipv6_tcp := o.cell })
  | ParamId.exclude_tcp_if =>
    (ofi_nccl_exclude_tcp_if w σ.st_exclude_tcp_if).map fun o =>
      (Value.str o.ret, { σ with st_exclude_tcp_if := o.cell })
  | ParamId.gdr_flush_disable =>
    (ofi_nccl_gdr_flush_disable w σ.st_gdr_flush_disable).map fun o =>
      (Value.int o.ret, { σ with st_gdr_flush_disable := o.cell })
  | ParamId.nic_dup_conns =>
    (ofi_nccl_nic_dup_conns w σ.st_nic_dup_conns).map fun o =>
      (Value.int o.ret, { σ with st_nic_dup_conns := o.cell })
  | ParamId.cuda_flush_enable =>
    (ofi_nccl_cuda_flush_enable w σ.st_cuda_flush_enable).map fun o =>
      (Value.int o.ret, { σ with st_cuda_flush_enable := o.cell })
  | ParamId.mr_key_size =>
    (ofi_nccl_mr_key_size w σ.st_mr_key_size).map fun o =>
      (Value.int o.ret, { σ with st_mr_key_size := o.cell })
  | ParamId.cq_read_count =>
    (ofi_nccl_cq_read_count w σ.st_cq_read_count).map fun o =>
      (Value.int o.ret, { σ with st_cq_read_count := o.cell })

/-- The accessor of `a` called first, the accessor of `b` second, each under
its own world: the two values in the order `a`, `b`, and the final state. -/
def Registry.call2 (σ : Registry) (a : ParamId) (wa : World) (b : ParamId) (wb : World) :
    Option (Value × Value × Registry) :=
  match σ.call wa a with
  | none => none
  | some ra =>
    match ra.2.call wb b with
    | none => none
    | some rb => some (ra.1, rb.1, rb.2)

/-- The integer parameters declared in the header. -/
def declared_int : List OFI_NCCL_PARAM_INT :=
  [use_ipv6_tcp, gdr_flush_disable, nic_dup_conns, cuda_flush_enable, mr_key_size,
    cq_read_count]

/-- The string parameters declared in the header. -/
def declared_str : List OFI_NCCL_PARAM_STR := [exclude_tcp_if]

/-- The upper-cased form of a name. -/
def upper (s : String) : String := String.mk (s.data.map Char.toUpper)

/-- An environment with one more variable set. -/
def setenv (env : String → Option String) (key val : String) : String → Option String :=
  fun k => if k = key then some val else env k

/-- The accessor of a parameter run on its own cell of the program state: the
value returned and the cell afterwards. -/
def Registry.run (σ : Registry) (w : World) : ParamId → Option (Value × Cell)
  | ParamId.use_ipv6_tcp =>
    (ofi_nccl_use_ipv6_tcp w σ.st_use_ipv6_tcp).map fun o => (Value.int o.ret, Cell.int o.cell)
  | ParamId.exclude_tcp_if =>
    (ofi_nccl_exclude_tcp_if w σ.st_exclude_tcp_if).map fun o =>
      (Value.str o.ret, Cell.str o.cell)
  | ParamId.gdr_flush_disable =>
    (ofi_nccl_gdr_flush_disable w σ.st_gdr_flush_disable).map fun o =>
      (Value.int o.ret, Cell.int o.cell)
  | ParamId.nic_dup_conns =>
    (ofi_nccl_nic_dup_conns w σ.st_nic_dup_conns).map fun o =>
      (Value.int o.ret, Cell.int o.cell)
  | ParamId.cuda_flush_enable =>
    (ofi_nccl_cuda_flush_enable w σ.st_cuda_flush_enable).map fun o =>
      (Value.int o.ret, Cell.int o.cell)
  | ParamId.mr_key_size =>
    (ofi_nccl_mr_key_size w σ.st_mr_key_size).map fun o => (Value.int o.ret, Cell.int o.cell)
  | ParamId.cq_read_count =>
    (ofi_nccl_cq_read_count w σ.st_cq_read_count).map fun o =>
      (Value.int o.ret, Cell.int o.cell)

/-- The program state with the cell of one parameter replaced (a cell of the
other kind replaces nothing). -/
def Registry.put (σ : Registry) : ParamId → Cell → Registry
  | ParamId.use_ipv6_tcp, Cell.int c => { σ with st_use_ipv6_tcp := c }
  | ParamId.exclude_tcp_if, Cell.str c => { σ with st_exclude_tcp_if := c }
  | ParamId.gdr_flush_disable, Cell.int c => { σ with st_gdr_flush_disable := c }
  | ParamId.nic_dup_conns, Cell.int c => { σ with st_nic_dup_conns := c }
  | ParamId.cuda_flush_enable, Cell.int c => { σ with st_cuda_flush_enable := c }
  | ParamId.mr_key_size, Cell.int c => { σ with st_mr_key_size := c }
  | ParamId.cq_read_count, Cell.int c => { σ with st_cq_read_count := c }
  | _, _ => σ

/-! ## Lemmas on the digit loop -/

theorem digitsValue_nil (b : Nat) : digitsValue b [] = 0 := by
  simp [digitsValue]

theorem digitsValue_cons (b : Nat) (c : Char) (cs : List Char) :
    digitsValue b (c :: cs) = (digitVal c).getD 0 * b ^ cs.length + digitsValue b cs := by
  simp [digitsValue, Nat.ofDigits_append, Nat.mul_comm, Nat.add_comm]

theorem digitIn_some {b : Nat} {c : Char} {d : Nat} (h : digitIn b c = some d) :
    digitVal c = some d ∧ d < b := by
  unfold digitIn at h
  split at h
  · rename_i d0 hd
    split at h
    · simp at h; subst h; exact ⟨hd, by assumption⟩
    · simp at h
  · simp at h

theorem scanDigits_mono (b : Nat) (cs : List Char) (acc k : Nat) :
    k ≤ (scanDigits b cs acc k).2 ∧ (scanDigits b cs acc k).2 ≤ k + cs.length := by
  induction cs generalizing acc k with
  | nil => simp [scanDigits]
  | cons c cs ih =>
    unfold scanDigits
    split
    · rename_i d hd
      have := ih (acc * b + d) (k + 1)
      simp only [List.length_cons]
      omega
    · simp

theorem scanDigits_all (b : Nat) (cs : List Char) (acc k : Nat) (h : allDigits b cs = true) :
    scanDigits b cs acc k = (acc * b ^ cs.length + digitsValue b cs, k + cs.length) := by
  induction cs generalizing acc k with
  | nil => simp [scanDigits, digitsValue_nil]
  | cons c cs ih =>
    have hc : (digitIn b c).isSome = true ∧ allDigits b cs = true := by
      simpa [allDigits] using h
    obtain ⟨d, hd⟩ := Option.isSome_iff_exists.mp hc.1
    have hv := (digitIn_some hd).1
    unfold scanDigits
    rw [hd]
    simp only
    rw [ih _ _ hc.2, digitsValue_cons, hv]
    simp only [Option.getD_some, List.length_cons, Prod.mk.injEq]
    constructor
    · ring
    · omega

theorem scanDigits_full (b : Nat) (cs : List Char) (acc k : Nat)
    (h : (scanDigits b cs acc k).2 = k + cs.length) : allDigits b cs = true := by
  induction cs generalizing acc k with
  | nil => simp [allDigits]
  | cons c cs ih =>
    unfold scanDigits at h
    split at h
    · rename_i d hd
      have := ih (acc * b + d) (k + 1) (by simp only [List.length_cons] at h; omega)
      simp [allDigits, hd] at this ⊢
      exact this
    · simp at h

/-- The digit loop consumes a non-empty string entirely exactly when all its
characters are digits, and then it returns their value. -/
theorem scanDigits_iff (b : Nat) (cs : List Char) (n : Nat) (hne : cs ≠ []) :
    ((scanDigits b cs 0 0).2 ≠ 0 ∧ (scanDigits b cs 0 0).2 = cs.length ∧
        (scanDigits b cs 0 0).1 = n) ↔
      (allDigits b cs = true ∧ digitsValue b cs = n) := by
  constructor
  · rintro ⟨_, hlen, hval⟩
    have hall := scanDigits_full b cs 0 0 (by omega)
    rw [scanDigits_all b cs 0 0 hall] at hval
    exact ⟨hall, by simpa using hval⟩
  · rintro ⟨hall, hval⟩
    rw [scanDigits_all b cs 0 0 hall]
    have : cs.length ≠ 0 := by simpa using hne
    simp [hval, this]

/-! ## Lemmas on base detection -/

theorem scanBase_nil : scanBase [] = (10, 0) := rfl

theorem scanBase_ne (c : Char) (t : List Char) (h : c ≠ '0') : scanBase (c :: t) = (10, 0) := by
  unfold scanBase
  split <;> simp_all

theorem scanBase_zero (t : List Char) (h : ∀ x y r, t = x :: y :: r →
    ¬ ((x = 'x' ∨ x = 'X') ∧ (digitIn 16 y).isSome = true)) :
    scanBase ('0' :: t) = (8, 0) := by
  unfold scanBase
  split
  · rename_i x y r heq
    simp only [List.cons.injEq, true_and] at heq
    rw [if_neg (h x y r heq)]
  · rfl
  · rename_i h1 h2
    exact absurd rfl (h2 t)

theorem scanBase_hex (x y : Char) (r : List Char) (hx : x = 'x' ∨ x = 'X')
    (hy : (digitIn 16 y).isSome = true) : scanBase ('0' :: x :: y :: r) = (16, 2) := by
  show (if (x = 'x' ∨ x = 'X') ∧ (digitIn 16 y).isSome then ((16 : Nat), (2 : Nat)) else (8, 0))
    = (16, 2)
  rw [if_pos ⟨hx, hy⟩]

/-! ## The scanner against the literal grammar -/

theorem digitIn_zero_oct : digitIn 8 '0' = some 0 := by decide

theorem digitIn_x_oct (x : Char) (hx : x = 'x' ∨ x = 'X') : digitIn 8 x = none := by
  rcases hx with h | h <;> subst h <;> decide

theorem allDigits_zero_cons (t : List Char) : allDigits 8 ('0' :: t) = allDigits 8 t := by
  simp [allDigits, digitIn_zero_oct]

theorem digitsValue_zero_cons (b : Nat) (t : List Char) :
    digitsValue b ('0' :: t) = digitsValue b t := by
  rw [digitsValue_cons]
  have : digitVal '0' = some 0 := by decide
  simp [this]

/-- After `0x` and a character that is no digit of base 8 in second place, the
octal digit loop reads the zero alone. -/
theorem scanDigits_zero_x (x : Char) (r : List Char) (hx : x = 'x' ∨ x = 'X') :
    scanDigits 8 ('0' :: x :: r) 0 0 = (0, 1) := by
  simp [scanDigits, digitIn_zero_oct, digitIn_x_oct x hx]

theorem literalBody_zero_nil : literalBody ['0'] = some 0 := by
  simp [literalBody]

theorem literalBody_zero_cons (x : Char) (hs : List Char) :
    literalBody ('0' :: x :: hs) =
      if x = 'x' ∨ x = 'X' then
        if hs ≠ [] ∧ allDigits 16 hs then some (digitsValue 16 hs) else none
      else if allDigits 8 (x :: hs) then some (digitsValue 8 (x :: hs)) else none := by
  simp [literalBody]

theorem literalBody_ne (c : Char) (t : List Char) (h : c ≠ '0') :
    literalBody (c :: t) =
      if allDigits 10 (c :: t) then some (digitsValue 10 (c :: t)) else none := by
  simp [literalBody, h]

/-- Base detection followed by the digit loop reads a whole string exactly when
the string is an unsigned base-0 literal, and the value read is the value of
the literal. -/
theorem body_iff (t : List Char) (n : Nat) :
    literalBody t = some n ↔
      ((scanDigits (scanBase t).1 (t.drop (scanBase t).2) 0 0).2 ≠ 0 ∧
        (scanBase t).2 + (scanDigits (scanBase t).1 (t.drop (scanBase t).2) 0 0).2 = t.length ∧
        (scanDigits (scanBase t).1 (t.drop (scanBase t).2) 0 0).1 = n) := by
  cases t with
  | nil => simp [literalBody, scanBase_nil, scanDigits]
  | cons c t =>
    by_cases hc : c = '0'
    · subst hc
      cases t with
      | nil =>
        have hb : scanBase ['0'] = (8, 0) := scanBase_zero [] (by simp)
        simp [literalBody_zero_nil, hb, scanDigits, digitIn_zero_oct, eq_comm]
      | cons x hs =>
        by_cases hx : x = 'x' ∨ x = 'X'
        · cases hs with
          | nil =>
            have hb : scanBase ['0', x] = (8, 0) := scanBase_zero [x] (by simp)
            simp [literalBody_zero_cons, hb, hx, scanDigits_zero_x x [] hx]
          | cons y r =>
            by_cases hy : (digitIn 16 y).isSome = true
            · rw [scanBase_hex x y r hx hy]
              rw [literalBody_zero_cons, if_pos hx]
              simp only [List.drop_succ_cons, List.drop_zero, List.length_cons]
              have key := scanDigits_iff 16 (y :: r) n (by simp)
              simp only [List.length_cons] at key
              by_cases hall : allDigits 16 (y :: r) = true
              · simp only [ne_eq, reduceCtorEq, not_false_eq_true, hall, and_self, if_true,
                  Option.some.injEq]
                constructor
                · intro h
                  have := key.mpr ⟨hall, h⟩
                  exact ⟨this.1, by omega, this.2.2⟩
                · rintro ⟨h1, h2, h3⟩
                  exact (key.mp ⟨h1, by omega, h3⟩).2
              · simp only [hall, and_false, if_false, reduceCtorEq, false_iff]
                rintro ⟨h1, h2, h3⟩
                exact hall (key.mp ⟨h1, by omega, h3⟩).1
            · have hb : scanBase ('0' :: x :: y :: r) = (8, 0) :=
                scanBase_zero (x :: y :: r) (by
                  intro a b q hq
                  simp only [List.cons.injEq] at hq
                  obtain ⟨rfl, rfl, _⟩ := hq
                  exact fun h => hy h.2)
              have hall : ¬ allDigits 16 (y :: r) = true := by
                simp only [allDigits, List.all_cons, Bool.and_eq_true, not_and]
                exact fun h => absurd h hy
              simp [literalBody_zero_cons, hb, hx, hall, scanDigits_zero_x x (y :: r) hx]
        · have hb : scanBase ('0' :: x :: hs) = (8, 0) :=
            scanBase_zero (x :: hs) (by
              intro a b q hq
              simp only [List.cons.injEq] at hq
              obtain ⟨rfl, _⟩ := hq
              exact fun h => hx h.1)
          rw [hb, literalBody_zero_cons, if_neg hx]
          simp only [List.drop_zero]
          have key := scanDigits_iff 8 ('0' :: x :: hs) n (by simp)
          rw [allDigits_zero_cons, digitsValue_zero_cons] at key
          by_cases hall : allDigits 8 (x :: hs) = true
          · simp only [hall, if_true, Option.some.injEq]
            constructor
            · intro h
              have := key.mpr ⟨hall, h⟩
              exact ⟨this.1, by omega, this.2.2⟩
            · rintro ⟨h1, h2, h3⟩
              exact (key.mp ⟨h1, by omega, h3⟩).2
          · simp only [hall, if_false, reduceCtorEq, false_iff]
            rintro ⟨h1, h2, h3⟩
            exact hall (key.mp ⟨h1, by omega, h3⟩).1
    · rw [scanBase_ne c t hc]
      rw [literalBody_ne c t hc]
      simp only [List.drop_zero]
      have key := scanDigits_iff 10 (c :: t) n (by simp)
      by_cases hall : allDigits 10 (c :: t) = true
      · simp only [hall, if_true, Option.some.injEq]
        constructor
        · intro h
          have := key.mpr ⟨hall, h⟩
          exact ⟨this.1, by omega, this.2.2⟩
        · rintro ⟨h1, h2, h3⟩
          exact (key.mp ⟨h1, by omega, h3⟩).2
      · simp only [hall, if_false, reduceCtorEq, false_iff]
        rintro ⟨h1, h2, h3⟩
        exact hall (key.mp ⟨h1, by omega, h3⟩).1

/-! ## `strtoll` on strings without leading white space -/

theorem strtoll_eq_convert (s : List Char) (e : Nat) :
    strtoll s e =
      convert (scanSign (s.drop (s.takeWhile isspace).length)).1
        ((s.drop (s.takeWhile isspace).length).drop
          (scanSign (s.drop (s.takeWhile isspace).length)).2)
        ((s.takeWhile isspace).length + (scanSign (s.drop (s.takeWhile isspace).length)).2) e := rfl

theorem scanBase_le (t : List Char) : (scanBase t).2 ≤ t.length := by
  unfold scanBase
  split
  · split <;> simp
  · simp
  · simp

/-- On an unsigned literal the conversion reads everything and applies the
range check to the value of the literal. -/
theorem convert_literal (neg : Bool) (t : List Char) (off e n : Nat)
    (h : literalBody t = some n) :
    convert neg t off e =
      if neg then
        if (2 : Int) ^ 63 < n then ⟨LLONG_MIN, off + t.length, ERANGE⟩
        else ⟨-(n : Int), off + t.length, e⟩
      else
        if (2 : Int) ^ 63 - 1 < n then ⟨LLONG_MAX, off + t.length, ERANGE⟩
        else ⟨(n : Int), off + t.length, e⟩ := by
  obtain ⟨h1, h2, h3⟩ := (body_iff t n).mp h
  unfold convert
  simp only [if_neg h1, h3, Nat.add_assoc, h2]

/-- When the conversion reads up to the end of the subject, the subject is an
unsigned literal. -/
theorem convert_full (neg : Bool) (t : List Char) (off e : Nat)
    (h0 : (convert neg t off e).endptr ≠ 0)
    (h1 : off + t.length ≤ (convert neg t off e).endptr) :
    ∃ n, literalBody t = some n := by
  unfold convert at h0 h1
  by_cases hd : (scanDigits (scanBase t).1 (t.drop (scanBase t).2) 0 0).2 = 0
  · simp [hd] at h0
  · simp only [if_neg hd] at h1
    have hm := (scanDigits_mono (scanBase t).1 (t.drop (scanBase t).2) 0 0).2
    have hb := scanBase_le t
    simp only [List.length_drop] at hm
    have he : (scanBase t).2 + (scanDigits (scanBase t).1 (t.drop (scanBase t).2) 0 0).2
        = t.length := by
      split at h1 <;> split at h1 <;> simp only at h1 <;> omega
    exact ⟨_, (body_iff t _).mpr ⟨hd, he, rfl⟩⟩

theorem isdigit_of_digitIn_ten (c : Char) (h : (digitIn 10 c).isSome = true) :
    isdigit c = true := by
  obtain ⟨d, hd⟩ := Option.isSome_iff_exists.mp h
  obtain ⟨hv, hlt⟩ := digitIn_some hd
  unfold digitVal at hv
  simp only at hv
  split at hv
  · simpa [isdigit] using ‹_›
  · split at hv
    · simp at hv; omega
    · split at hv
      · simp at hv; omega
      · simp at hv

/-- Without a decimal digit in front no conversion is performed. -/
theorem convert_none (neg : Bool) (t : List Char) (off e : Nat)
    (h : ∀ c r, t = c :: r → isdigit c = false) :
    convert neg t off e = ⟨0, 0, e⟩ := by
  cases t with
  | nil => simp [convert, scanBase_nil, scanDigits]
  | cons c r =>
    have hc := h c r rfl
    have hne : c ≠ '0' := by
      rintro rfl
      exact absurd hc (by decide)
    have hd : digitIn 10 c = none := by
      cases hq : digitIn 10 c with
      | none => rfl
      | some d =>
        have := isdigit_of_digitIn_ten c (by simp [hq])
        simp [hc] at this
    simp [convert, scanBase_ne c r hne, scanDigits, hd]

/-- The value `strtoll` returns always fits `long long`, which is why the
cached value needs no reduction modulo `2 ^ 64`. -/
theorem strtoll_range (s : List Char) (e : Nat) :
    LLONG_MIN ≤ (strtoll s e).val ∧ (strtoll s e).val ≤ LLONG_MAX := by
  rw [strtoll_eq_convert]
  unfold convert
  simp only [LLONG_MIN, LLONG_MAX]
  split
  · simp
  · split <;> split <;> simp only <;> omega

theorem sign_cases (s : List Char) :
    (∃ t, s = '-' :: t) ∨ (∃ t, s = '+' :: t) ∨
      (scanSign s = (false, 0) ∧ afterSign s = s ∧
        base0Value s = (literalBody s).map fun (n : Nat) => (n : Int)) := by
  cases s with
  | nil => right; right; exact ⟨rfl, rfl, rfl⟩
  | cons c t =>
    by_cases hm : c = '-'
    · left; exact ⟨t, by rw [hm]⟩
    · by_cases hp : c = '+'
      · right; left; exact ⟨t, by rw [hp]⟩
      · right; right
        refine ⟨?_, ?_, ?_⟩
        · unfold scanSign; split <;> simp_all
        · unfold afterSign; split <;> simp_all
        · unfold base0Value; split <;> simp_all

theorem isspace_of_isdigit (c : Char) (h : isdigit c = true) : isspace c = false := by
  simp only [isdigit, Bool.and_eq_true, decide_eq_true_eq] at h
  simp only [isspace, Bool.or_eq_false_iff, beq_eq_false_iff_ne, ne_eq, Bool.and_eq_false_imp,
    decide_eq_true_eq, decide_eq_false_iff_not]
  omega

theorem literalBody_head (t : List Char) (n : Nat) (h : literalBody t = some n) :
    ∃ c r, t = c :: r ∧ isdigit c = true := by
  cases t with
  | nil => simp [literalBody] at h
  | cons c r =>
    refine ⟨c, r, rfl, ?_⟩
    by_cases hc : c = '0'
    · subst hc; decide
    · rw [literalBody_ne c r hc] at h
      split at h
      · rename_i hall
        apply isdigit_of_digitIn_ten
        simp only [allDigits, List.all_cons, Bool.and_eq_true] at hall
        exact hall.1
      · simp at h

theorem takeWhile_isspace_of_head (c : Char) (t : List Char) (h : isspace c = false) :
    (c :: t).takeWhile isspace = [] := by
  simp [List.takeWhile, h]

/-- A literal does not start with white space. -/
theorem base0Value_noSpace (s : List Char) (v : Int) (h : base0Value s = some v) :
    s.takeWhile isspace = [] := by
  rcases sign_cases s with ⟨t, rfl⟩ | ⟨t, rfl⟩ | ⟨_, _, hb⟩
  · exact takeWhile_isspace_of_head _ _ (by decide)
  · exact takeWhile_isspace_of_head _ _ (by decide)
  · rw [hb] at h
    cases hl : literalBody s with
    | none => simp [hl] at h
    | some n =>
      obtain ⟨c, r, rfl, hc⟩ := literalBody_head s n hl
      exact takeWhile_isspace_of_head _ _ (isspace_of_isdigit c hc)

/-- What `strtoll` does on a string that starts with neither white space nor
sign handling left to do: the three shapes of the sign. -/
theorem strtoll_minus (t : List Char) (e : Nat) :
    strtoll ('-' :: t) e = convert true t 1 e := by
  rw [strtoll_eq_convert]
  simp [takeWhile_isspace_of_head '-' t (by decide), scanSign]

theorem strtoll_plus (t : List Char) (e : Nat) :
    strtoll ('+' :: t) e = convert false t 1 e := by
  rw [strtoll_eq_convert]
  simp [takeWhile_isspace_of_head '+' t (by decide), scanSign]

theorem strtoll_unsigned (s : List Char) (e : Nat) (hws : s.takeWhile isspace = [])
    (hs : scanSign s = (false, 0)) : strtoll s e = convert false s 0 e := by
  rw [strtoll_eq_convert]
  simp [hws, hs]

/-- On a well-formed literal `strtoll` reads the whole string; it returns the
value of the literal when that is in range and signals a range error else. -/
theorem strtoll_literal (s : List Char) (v : Int) (e : Nat) (h : base0Value s = some v) :
    strtoll s e =
      if LLONG_MAX < v then ⟨LLONG_MAX, s.length, ERANGE⟩
      else if v < LLONG_MIN then ⟨LLONG_MIN, s.length, ERANGE⟩
      else ⟨v, s.length, e⟩ := by
  have hws := base0Value_noSpace s v h
  rcases sign_cases s with ⟨t, rfl⟩ | ⟨t, rfl⟩ | ⟨hs, _, hb⟩
  · cases hl : literalBody t with
    | none => simp [base0Value, hl] at h
    | some n =>
      have hv : v = -(n : Int) := by simpa [base0Value, hl, eq_comm] using h
      rw [strtoll_minus, convert_literal true t 1 e n hl]
      subst hv
      have hn : (0 : Int) ≤ n := Int.ofNat_nonneg n
      simp only [if_true, LLONG_MAX, LLONG_MIN, List.length_cons, Nat.add_comm 1]
      by_cases hr : (2 : Int) ^ 63 < n
      · rw [if_pos hr, if_neg (by omega), if_pos (by omega)]
      · rw [if_neg hr, if_neg (by omega), if_neg (by omega)]
  · cases hl : literalBody t with
    | none => simp [base0Value, hl] at h
    | some n =>
      have hv : v = (n : Int) := by simpa [base0Value, hl, eq_comm] using h
      rw [strtoll_plus, convert_literal false t 1 e n hl]
      subst hv
      have hn : (0 : Int) ≤ n := Int.ofNat_nonneg n
      simp only [Bool.false_eq_true, if_false, LLONG_MAX, LLONG_MIN, List.length_cons,
        Nat.add_comm 1]
      by_cases hr : (2 : Int) ^ 63 - 1 < n
      · rw [if_pos hr, if_pos hr]
      · rw [if_neg hr, if_neg hr, if_neg (by omega)]
  · rw [hb] at h
    cases hl : literalBody s with
    | none => simp [hl] at h
    | some n =>
      have hv : v = (n : Int) := by simpa [hl, eq_comm] using h
      rw [strtoll_unsigned s e hws hs, convert_literal false s 0 e n hl]
      subst hv
      have hn : (0 : Int) ≤ n := Int.ofNat_nonneg n
      simp only [Bool.false_eq_true, if_false, LLONG_MAX, LLONG_MIN, Nat.zero_add]
      by_cases hr : (2 : Int) ^ 63 - 1 < n
      · rw [if_pos hr, if_pos hr]
      · rw [if_neg hr, if_neg hr, if_neg (by omega)]

/-- When `strtoll` converts something and stops at the end of a string that
does not start with white space, the string is a well-formed literal. -/
theorem strtoll_whole (s : List Char) (e : Nat) (hws : s.takeWhile isspace = [])
    (h0 : (strtoll s e).endptr ≠ 0) (h1 : s.drop (strtoll s e).endptr = []) :
    ∃ v, base0Value s = some v := by
  have hlen : s.length ≤ (strtoll s e).endptr := by simpa using h1
  rcases sign_cases s with ⟨t, rfl⟩ | ⟨t, rfl⟩ | ⟨hs, _, hb⟩
  · rw [strtoll_minus] at h0 hlen
    obtain ⟨n, hn⟩ := convert_full true t 1 e h0 (by simp at hlen; omega)
    exact ⟨-(n : Int), by simp [base0Value, hn]⟩
  · rw [strtoll_plus] at h0 hlen
    obtain ⟨n, hn⟩ := convert_full false t 1 e h0 (by simp at hlen; omega)
    exact ⟨(n : Int), by simp [base0Value, hn]⟩
  · rw [strtoll_unsigned s e hws hs] at h0 hlen
    obtain ⟨n, hn⟩ := convert_full false s 0 e h0 (by omega)
    exact ⟨(n : Int), by simp [hb, hn]⟩

theorem drop_length_takeWhile (p : Char → Bool) (l : List Char) :
    l.drop (l.takeWhile p).length = l.dropWhile p := by
  induction l with
  | nil => rfl
  | cons a l ih =>
    by_cases h : p a = true
    · simp [List.takeWhile, List.dropWhile, h, ih]
    · simp [List.takeWhile, List.dropWhile, h]

/-- From a string without a digit after white space and sign `strtoll`
converts nothing: it returns 0, leaves `endptr` at the start and `errno`
alone. -/
theorem strtoll_noConversion (s : List Char) (e : Nat) (h : noConversion s = true) :
    strtoll s e = ⟨0, 0, e⟩ := by
  rw [strtoll_eq_convert, drop_length_takeWhile]
  unfold noConversion at h
  generalize s.dropWhile isspace = u at h ⊢
  have key : ∀ c r, afterSign u = c :: r → isdigit c = false := by
    intro c r hcr
    rw [hcr] at h
    simpa using h
  rcases sign_cases u with ⟨t, rfl⟩ | ⟨t, rfl⟩ | ⟨hs, ha, _⟩
  · exact convert_none _ _ _ _ (by simpa [scanSign, afterSign] using key)
  · exact convert_none _ _ _ _ (by simpa [scanSign, afterSign] using key)
  · rw [hs]
    rw [ha] at key
    exact convert_none _ _ _ _ (by simpa using key)

/-! ## The locked section of the integer accessor, case by case -/

theorem int_locked_absent (p : OFI_NCCL_PARAM_INT) (w : World) (d : Int) (l : Bool)
    (henv : w.getenv p.key = none) :
    p.locked w ⟨false, d, l⟩ = (⟨true, d, l⟩, [Event.getenv p.key]) := by
  simp [OFI_NCCL_PARAM_INT.locked, henv]

theorem int_locked_empty (p : OFI_NCCL_PARAM_INT) (w : World) (d : Int) (l : Bool) (s : String)
    (henv : w.getenv p.key = some s) (hs : s.data = []) :
    p.locked w ⟨false, d, l⟩ = (⟨true, d, l⟩, [Event.getenv p.key]) := by
  simp [OFI_NCCL_PARAM_INT.locked, henv, strlen, hs]

theorem int_locked_reject (p : OFI_NCCL_PARAM_INT) (w : World) (d : Int) (l : Bool) (s : String)
    (henv : w.getenv p.key = some s) (hs : s.data ≠ [])
    (hrej : (strtoll s.data 0).errno ≠ 0 ∨ (strtoll s.data 0).endptr = 0 ∨
      s.data.drop (strtoll s.data 0).endptr ≠ []) :
    p.locked w ⟨false, d, l⟩ =
      (⟨true, d, l⟩,
        [Event.getenv p.key,
          Event.info FMT_INVALID [Arg.str s, Arg.str p.key, Arg.i64 d]]) := by
  have hlen : strlen s > 0 := List.length_pos.mpr hs
  simp only [OFI_NCCL_PARAM_INT.locked, henv, hlen, if_true, if_pos hrej, Bool.not_false]

theorem int_locked_accept (p : OFI_NCCL_PARAM_INT) (w : World) (d : Int) (l : Bool) (s : String)
    (henv : w.getenv p.key = some s) (hs : s.data ≠ [])
    (hacc : ¬ ((strtoll s.data 0).errno ≠ 0 ∨ (strtoll s.data 0).endptr = 0 ∨
      s.data.drop (strtoll s.data 0).endptr ≠ [])) :
    p.locked w ⟨false, d, l⟩ =
      (⟨true, (strtoll s.data 0).val, l⟩,
        [Event.getenv p.key,
          Event.info FMT_SET_INT [Arg.str p.key, Arg.i64 (strtoll s.data 0).val]]) := by
  have hlen : strlen s > 0 := List.length_pos.mpr hs
  simp only [OFI_NCCL_PARAM_INT.locked, henv, hlen, if_true, if_neg hacc, Bool.not_false]

/-- The first call in terms of the locked section. -/
theorem int_get_init (p : OFI_NCCL_PARAM_INT) (w : World) :
    p.get w p.init =
      some { ret := (p.locked w ⟨false, p.default_value, true⟩).1.value,
             cell := { (p.locked w ⟨false, p.default_value, true⟩).1 with lock := false },
             trace := Event.lock :: (p.locked w ⟨false, p.default_value, true⟩).2 ++
               [Event.unlock] } := rfl

theorem base0Value_ne_nil (s : List Char) (v : Int) (h : base0Value s = some v) : s ≠ [] := by
  rintro rfl
  simp [base0Value, literalBody] at h

theorem text_invalid (s k : String) (d : Int) :
    (Event.info FMT_INVALID [Arg.str s, Arg.str k, Arg.i64 d]).text =
      some ("Invalid value " ++ s ++ " provided for " ++ k ++
        " environment variable, using default " ++ Nat.repr (d % 2 ^ 64).toNat) := by
  have h : vformat FMT_INVALID.data [Arg.str s, Arg.str k, Arg.i64 d] =
      "Invalid value ".data ++ (s.data ++ (" provided for ".data ++ (k.data ++
        (" environment variable, using default ".data ++
          ((Nat.repr (d % 2 ^ 64).toNat).data ++ []))))) := rfl
  simp only [Event.text, h]
  congr 1
  apply String.ext
  simp [String.data_append]

/-! ## First call of an integer accessor -/

/-- C1: with the environment variable set to a well-formed base-0 integer
literal whose value `v` lies in the 64-bit signed range, the first call of an
integer accessor returns `v` and leaves the cell initialized with cached value
`v` (and the mutex free); its one diagnostic reports the value set. -/
theorem int_first_call_valid_literal (p : OFI_NCCL_PARAM_INT) (w : World) (s : String) (v : Int)
    (henv : w.getenv p.key = some s)
    (hlit : base0Value s.data = some v)
    (hlo : -(2 : Int) ^ 63 ≤ v) (hhi : v ≤ 2 ^ 63 - 1) :
    (p.get w p.init).map (fun o => (o.ret, o.cell, diagnostics o.trace)) =
      some (v, ⟨true, v, false⟩,
        [Event.info FMT_SET_INT [Arg.str p.key, Arg.i64 v]]) := by
  have hst := strtoll_literal s.data v 0 hlit
  rw [if_neg (by simp only [LLONG_MAX]; omega), if_neg (by simp only [LLONG_MIN]; omega)] at hst
  have hne := base0Value_ne_nil s.data v hlit
  have hacc : ¬ ((strtoll s.data 0).errno ≠ 0 ∨ (strtoll s.data 0).endptr = 0 ∨
      s.data.drop (strtoll s.data 0).endptr ≠ []) := by
    rw [hst]
    have h1 : s.data.length ≠ 0 := fun h => hne (List.length_eq_zero.mp h)
    have h2 : s.length ≠ 0 := h1
    simp [h1, h2]
  rw [int_get_init, int_locked_accept p w _ _ s henv hne hacc, hst]
  simp [diagnostics]

/-- C1, at `OFI_NCCL_CQ_READ_COUNT="0x10"`: the first call returns 16. -/
theorem int_first_call_valid_literal_witness :
    (ofi_nccl_cq_read_count ⟨env1 "OFI_NCCL_CQ_READ_COUNT" "0x10", true⟩ cq_read_count.init).map
        (fun o => (o.ret, o.cell, diagnostics o.trace)) =
      some (16, ⟨true, 16, false⟩,
        [Event.info FMT_SET_INT [Arg.str cq_read_count.key, Arg.i64 16]]) :=
  int_first_call_valid_literal cq_read_count ⟨env1 "OFI_NCCL_CQ_READ_COUNT" "0x10", true⟩
    "0x10" 16 (by decide) (by decide) (by decide) (by decide)

/-- Decimal and octal values: `OFI_NCCL_CQ_READ_COUNT="8"` and `"010"` both
give 8. -/
theorem cq_read_count_eight :
    (ofi_nccl_cq_read_count ⟨env1 "OFI_NCCL_CQ_READ_COUNT" "8", true⟩
        cq_read_count.init).map (fun o => (o.ret, o.cell)) = some (8, ⟨true, 8, false⟩) ∧
    (ofi_nccl_cq_read_count ⟨env1 "OFI_NCCL_CQ_READ_COUNT" "010", true⟩
        cq_read_count.init).map (fun o => (o.ret, o.cell)) = some (8, ⟨true, 8, false⟩) := by
  constructor <;> decide

/-- C2: with the environment variable absent, or present with the empty string
as value, the first call of an integer accessor returns the default, leaves the
cell initialized with the default as cached value, and emits no diagnostic. -/
theorem int_first_call_absent_or_empty (p : OFI_NCCL_PARAM_INT) (w : World)
    (henv : w.getenv p.key = none ∨ w.getenv p.key = some "") :
    (p.get w p.init).map (fun o => (o.ret, o.cell, diagnostics o.trace)) =
      some (p.default_value, ⟨true, p.default_value, false⟩, []) := by
  rw [int_get_init]
  rcases henv with h | h
  · rw [int_locked_absent p w _ _ h]
    simp [diagnostics]
  · rw [int_locked_empty p w _ _ "" h rfl]
    simp [diagnostics]

/-- C2, at `OFI_NCCL_CQ_READ_COUNT=""`: the first call returns 4 silently. -/
theorem int_first_call_absent_or_empty_witness :
    (ofi_nccl_cq_read_count ⟨env1 "OFI_NCCL_CQ_READ_COUNT" "", true⟩ cq_read_count.init).map
        (fun o => (o.ret, o.cell, diagnostics o.trace)) =
      some (4, ⟨true, 4, false⟩, []) :=
  int_first_call_absent_or_empty cq_read_count ⟨env1 "OFI_NCCL_CQ_READ_COUNT" "", true⟩
    (Or.inr (by decide))

/-- The same with `OFI_NCCL_CQ_READ_COUNT` unset. -/
theorem cq_read_count_unset :
    (ofi_nccl_cq_read_count ⟨env0, true⟩ cq_read_count.init).map
        (fun o => (o.ret, o.cell, diagnostics o.trace)) =
      some (4, ⟨true, 4, false⟩, []) := by
  decide

/-- The rejected branch of the first call, shared by the rejection claims. -/
theorem int_get_init_reject (p : OFI_NCCL_PARAM_INT) (w : World) (s : String)
    (henv : w.getenv p.key = some s) (hs : s.data ≠ [])
    (hrej : (strtoll s.data 0).errno ≠ 0 ∨ (strtoll s.data 0).endptr = 0 ∨
      s.data.drop (strtoll s.data 0).endptr ≠ []) :
    (p.get w p.init).map (fun o => (o.ret, o.cell, diagnostics o.trace)) =
      some (p.default_value, ⟨true, p.default_value, false⟩,
        [Event.info FMT_INVALID [Arg.str s, Arg.str p.key, Arg.i64 p.default_value]]) := by
  rw [int_get_init, int_locked_reject p w _ _ s henv hs hrej]
  simp [diagnostics]

/-- C3: with the environment variable set to a non-empty string from which no
integer can be converted (no digit after white space and an optional sign), the
first call of an integer accessor returns the default, leaves the default
cached, and emits exactly one diagnostic: the `Invalid value` message, whose
arguments are the input, the variable name and the default, and whose text
shows the input and the default as `%lu` prints it. -/
theorem int_first_call_no_conversion (p : OFI_NCCL_PARAM_INT) (w : World) (s : String)
    (henv : w.getenv p.key = some s) (hne : s ≠ "")
    (hnc : noConversion s.data = true) :
    (p.get w p.init).map (fun o => (o.ret, o.cell, diagnostics o.trace)) =
        some (p.default_value, ⟨true, p.default_value, false⟩,
          [Event.info FMT_INVALID [Arg.str s, Arg.str p.key, Arg.i64 p.default_value]]) ∧
      (Event.info FMT_INVALID [Arg.str s, Arg.str p.key, Arg.i64 p.default_value]).text =
        some ("Invalid value " ++ s ++ " provided for " ++ p.key ++
          " environment variable, using default " ++
          Nat.repr (p.default_value % 2 ^ 64).toNat) := by
  refine ⟨?_, text_invalid s p.key p.default_value⟩
  have hs : s.data ≠ [] := fun h => hne (String.ext h)
  apply int_get_init_reject p w s henv hs
  rw [strtoll_noConversion s.data 0 hnc]
  simp

/-- C3, at `OFI_NCCL_CQ_READ_COUNT="abc"`: 4 is returned with one `Invalid
value` diagnostic. -/
theorem int_first_call_no_conversion_witness :
    (ofi_nccl_cq_read_count ⟨env1 "OFI_NCCL_CQ_READ_COUNT" "abc", true⟩ cq_read_count.init).map
          (fun o => (o.ret, o.cell, diagnostics o.trace)) =
        some (4, ⟨true, 4, false⟩,
          [Event.info FMT_INVALID [Arg.str "abc", Arg.str cq_read_count.key, Arg.i64 4]]) ∧
      (Event.info FMT_INVALID [Arg.str "abc", Arg.str cq_read_count.key, Arg.i64 4]).text =
        some ("Invalid value " ++ "abc" ++ " provided for " ++ cq_read_count.key ++
          " environment variable, using default " ++ Nat.repr ((4 : Int) % 2 ^ 64).toNat) :=
  int_first_call_no_conversion cq_read_count ⟨env1 "OFI_NCCL_CQ_READ_COUNT" "abc", true⟩
    "abc" (by decide) (by decide) (by decide)

theorem takeWhile_append_of_nil (p : Char → Bool) (l r : List Char) (hl : l ≠ [])
    (h : l.takeWhile p = []) : (l ++ r).takeWhile p = [] := by
  cases l with
  | nil => exact absurd rfl hl
  | cons a l =>
    by_cases ha : p a = true
    · simp [List.takeWhile, ha] at h
    · simp [List.takeWhile, ha]

/-- C4: parsing must consume the entire string. With the environment variable
set to a well-formed literal `lit` followed by a non-empty remainder `r` of
which no initial segment extends the literal, the first call of an integer
accessor does not adopt the value of `lit`: it returns the default, leaves the
default cached and reports the input as invalid; so the value of `lit` is
returned only where it happens to be the default. -/
theorem int_first_call_trailing_rejected (p : OFI_NCCL_PARAM_INT) (w : World) (s : String)
    (lit r : List Char) (v : Int)
    (henv : w.getenv p.key = some s) (hs : s.data = lit ++ r)
    (hlit : base0Value lit = some v) (hr : r ≠ [])
    (hext : extendsLiteral lit r = false) :
    (p.get w p.init).map (fun o => (o.ret, o.cell, diagnostics o.trace)) =
        some (p.default_value, ⟨true, p.default_value, false⟩,
          [Event.info FMT_INVALID [Arg.str s, Arg.str p.key, Arg.i64 p.default_value]]) ∧
      (p.default_value ≠ v → (p.get w p.init).map (fun o => o.ret) ≠ some v) := by
  have hmain : (p.get w p.init).map (fun o => (o.ret, o.cell, diagnostics o.trace)) =
      some (p.default_value, ⟨true, p.default_value, false⟩,
        [Event.info FMT_INVALID [Arg.str s, Arg.str p.key, Arg.i64 p.default_value]]) := by
    have hlne := base0Value_ne_nil lit v hlit
    have hne : s.data ≠ [] := by
      rw [hs]
      simp [hlne]
    apply int_get_init_reject p w s henv hne
    by_contra hacc
    simp only [not_or, not_not] at hacc
    obtain ⟨_, h0, h1⟩ := hacc
    have hws : s.data.takeWhile isspace = [] := by
      rw [hs]
      exact takeWhile_append_of_nil isspace lit r hlne (base0Value_noSpace lit v hlit)
    obtain ⟨v1, hv1⟩ := strtoll_whole s.data 0 hws h0 h1
    rw [hs] at hv1
    have hmem : r ∈ r.inits := (List.mem_inits r r).mpr ⟨[], List.append_nil r⟩
    have hall := List.any_eq_false.mp hext r hmem
    simp [hv1, hr] at hall
  refine ⟨hmain, fun hd hret => ?_⟩
  rw [int_get_init] at hmain hret
  simp only [Option.map_some', Option.some.injEq, Prod.mk.injEq] at hmain hret
  exact hd (hmain.1.symm.trans hret)

/-- C4, at `OFI_NCCL_NIC_DUP_CONNS="3x"`: the first call returns 0, not 3. -/
theorem int_first_call_trailing_rejected_witness :
    (ofi_nccl_nic_dup_conns ⟨env1 "OFI_NCCL_NIC_DUP_CONNS" "3x", true⟩ nic_dup_conns.init).map
        (fun o => (o.ret, o.cell, diagnostics o.trace)) =
        some (0, ⟨true, 0, false⟩,
          [Event.info FMT_INVALID [Arg.str "3x", Arg.str nic_dup_conns.key, Arg.i64 0]]) ∧
      (nic_dup_conns.default_value ≠ 3 →
        (ofi_nccl_nic_dup_conns ⟨env1 "OFI_NCCL_NIC_DUP_CONNS" "3x", true⟩
          nic_dup_conns.init).map (fun o => o.ret) ≠ some 3) :=
  int_first_call_trailing_rejected nic_dup_conns ⟨env1 "OFI_NCCL_NIC_DUP_CONNS" "3x", true⟩
    "3x" ['3'] ['x'] 3 (by decide) (by decide) (by decide) (by decide) (by decide)

/-- A trailing blank invalidates the value: `OFI_NCCL_CQ_READ_COUNT="8 "`. -/
theorem cq_read_count_trailing_blank :
    (ofi_nccl_cq_read_count ⟨env1 "OFI_NCCL_CQ_READ_COUNT" "8 ", true⟩ cq_read_count.init).map
        (fun o => (o.ret, o.cell, diagnostics o.trace)) =
      some (4, ⟨true, 4, false⟩,
        [Event.info FMT_INVALID [Arg.str "8 ", Arg.str cq_read_count.key, Arg.i64 4]]) := by
  decide

/-- The bare prefix is invalid: `OFI_NCCL_CQ_READ_COUNT="0x"`. -/
theorem cq_read_count_bare_0x :
    (ofi_nccl_cq_read_count ⟨env1 "OFI_NCCL_CQ_READ_COUNT" "0x", true⟩ cq_read_count.init).map
        (fun o => (o.ret, o.cell, diagnostics o.trace)) =
      some (4, ⟨true, 4, false⟩,
        [Event.info FMT_INVALID [Arg.str "0x", Arg.str cq_read_count.key, Arg.i64 4]]) := by
  decide

/-- C5: with the environment variable set to a well-formed literal whose value
is above `2 ^ 63 - 1` or below `-2 ^ 63`, the first call of an integer accessor
returns the default (no clamped or wrapped value is cached) and emits one
diagnostic, the `Invalid value` message. -/
theorem int_first_call_out_of_range (p : OFI_NCCL_PARAM_INT) (w : World) (s : String) (v : Int)
    (henv : w.getenv p.key = some s)
    (hlit : base0Value s.data = some v)
    (hout : v < -(2 : Int) ^ 63 ∨ 2 ^ 63 - 1 < v) :
    (p.get w p.init).map (fun o => (o.ret, o.cell, diagnostics o.trace)) =
      some (p.default_value, ⟨true, p.default_value, false⟩,
        [Event.info FMT_INVALID [Arg.str s, Arg.str p.key, Arg.i64 p.default_value]]) := by
  have hne := base0Value_ne_nil s.data v hlit
  apply int_get_init_reject p w s henv hne
  left
  rw [strtoll_literal s.data v 0 hlit]
  rcases hout with h | h
  · rw [if_neg (by simp only [LLONG_MAX]; omega), if_pos (by simp only [LLONG_MIN]; omega)]
    show ERANGE ≠ 0
    decide
  · rw [if_pos (by simp only [LLONG_MAX]; omega)]
    show ERANGE ≠ 0
    decide

/-- C5, at `OFI_NCCL_MR_KEY_SIZE="99999999999999999999"`: the first call
returns 2. -/
theorem int_first_call_out_of_range_witness :
    (ofi_nccl_mr_key_size ⟨env1 "OFI_NCCL_MR_KEY_SIZE" "99999999999999999999", true⟩
        mr_key_size.init).map (fun o => (o.ret, o.cell, diagnostics o.trace)) =
      some (2, ⟨true, 2, false⟩,
        [Event.info FMT_INVALID
          [Arg.str "99999999999999999999", Arg.str mr_key_size.key, Arg.i64 2]]) :=
  int_first_call_out_of_range mr_key_size
    ⟨env1 "OFI_NCCL_MR_KEY_SIZE" "99999999999999999999", true⟩
    "99999999999999999999" 99999999999999999999 (by decide) (by decide) (by decide)

/-- One past the largest value: `OFI_NCCL_MR_KEY_SIZE="9223372036854775808"`. -/
theorem mr_key_size_one_past_max :
    (ofi_nccl_mr_key_size ⟨env1 "OFI_NCCL_MR_KEY_SIZE" "9223372036854775808", true⟩
        mr_key_size.init).map (fun o => (o.ret, o.cell)) =
      some (2, ⟨true, 2, false⟩) := by
  decide

/-- The two ends of the range are accepted. -/
theorem cq_read_count_range_ends :
    (ofi_nccl_cq_read_count ⟨env1 "OFI_NCCL_CQ_READ_COUNT" "-9223372036854775808", true⟩
        cq_read_count.init).map (fun o => (o.ret, o.cell)) =
      some (-9223372036854775808, ⟨true, -9223372036854775808, false⟩) ∧
    (ofi_nccl_cq_read_count ⟨env1 "OFI_NCCL_CQ_READ_COUNT" "9223372036854775807", true⟩
        cq_read_count.init).map (fun o => (o.ret, o.cell)) =
      some (9223372036854775807, ⟨true, 9223372036854775807, false⟩) := by
  constructor <;> decide

/-! ## First call of a string accessor -/

/-- The first call in terms of the locked section. -/
theorem str_get_init (p : OFI_NCCL_PARAM_STR) (w : World) :
    p.get w p.init =
      some { ret := (p.locked w ⟨false, some p.default_value, true⟩).1.value,
             cell := { (p.locked w ⟨false, some p.default_value, true⟩).1 with lock := false },
             trace := Event.lock :: (p.locked w ⟨false, some p.default_value, true⟩).2 ++
               [Event.unlock] } := rfl

theorem str_locked_absent (p : OFI_NCCL_PARAM_STR) (w : World) (d : Option String) (l : Bool)
    (henv : w.getenv p.key = none) :
    p.locked w ⟨false, d, l⟩ = (⟨true, d, l⟩, [Event.getenv p.key]) := by
  simp [OFI_NCCL_PARAM_STR.locked, henv]

theorem str_locked_copied (p : OFI_NCCL_PARAM_STR) (w : World) (d : Option String) (l : Bool)
    (s : String) (henv : w.getenv p.key = some s) (hheap : w.heap_ok = true) :
    p.locked w ⟨false, d, l⟩ =
      (⟨true, some s, l⟩,
        [Event.getenv p.key, Event.info FMT_SET_STR [Arg.str p.key, Arg.str s]]) := by
  simp [OFI_NCCL_PARAM_STR.locked, henv, strdup, hheap, Arg.ofPtr]

theorem str_locked_no_storage (p : OFI_NCCL_PARAM_STR) (w : World) (d : Option String) (l : Bool)
    (s : String) (henv : w.getenv p.key = some s) (hheap : w.heap_ok = false) :
    p.locked w ⟨false, d, l⟩ =
      (⟨true, some p.default_value, l⟩,
        [Event.getenv p.key,
          Event.info FMT_ALLOC [Arg.str p.key, Arg.str p.default_value]]) := by
  simp [OFI_NCCL_PARAM_STR.locked, henv, strdup, hheap, Arg.ofPtr]

theorem text_set_str (k s : String) :
    (Event.info FMT_SET_STR [Arg.str k, Arg.str s]).text =
      some ("Setting " ++ k ++ " environment variable to " ++ s) := by
  have h : vformat FMT_SET_STR.data [Arg.str k, Arg.str s] =
      "Setting ".data ++ (k.data ++ (" environment variable to ".data ++ (s.data ++ []))) :=
    rfl
  simp only [Event.text, h]
  congr 1
  apply String.ext
  simp [String.data_append]

theorem text_alloc (k d : String) :
    (Event.info FMT_ALLOC [Arg.str k, Arg.str d]).text =
      some ("Allocation error saving result for " ++ k ++
        " environment variable.  Falling back to default " ++ d) := by
  have h : vformat FMT_ALLOC.data [Arg.str k, Arg.str d] =
      "Allocation error saving result for ".data ++ (k.data ++
        (" environment variable.  Falling back to default ".data ++ (d.data ++ []))) :=
    rfl
  simp only [Event.text, h]
  congr 1
  apply String.ext
  simp [String.data_append]

/-- C6: with the environment variable present with any value `s`, the empty
string included, and the copy succeeding, the first call of a string accessor
returns a text equal to `s`, leaves it cached, and emits one diagnostic, the
`Setting` message carrying the new value. -/
theorem str_first_call_present (p : OFI_NCCL_PARAM_STR) (w : World) (s : String)
    (henv : w.getenv p.key = some s) (hheap : w.heap_ok = true) :
    (p.get w p.init).map (fun o => (o.ret, o.cell, diagnostics o.trace)) =
        some (some s, ⟨true, some s, false⟩,
          [Event.info FMT_SET_STR [Arg.str p.key, Arg.str s]]) ∧
      (Event.info FMT_SET_STR [Arg.str p.key, Arg.str s]).text =
        some ("Setting " ++ p.key ++ " environment variable to " ++ s) := by
  refine ⟨?_, text_set_str p.key s⟩
  rw [str_get_init, str_locked_copied p w _ _ s henv hheap]
  simp [diagnostics]

/-- C6, at `OFI_NCCL_EXCLUDE_TCP_IF=""`: the first call returns the empty
string, not `lo,docker0`. -/
theorem str_first_call_present_witness :
    (ofi_nccl_exclude_tcp_if ⟨env1 "OFI_NCCL_EXCLUDE_TCP_IF" "", true⟩ exclude_tcp_if.init).map
          (fun o => (o.ret, o.cell, diagnostics o.trace)) =
        some (some "", ⟨true, some "", false⟩,
          [Event.info FMT_SET_STR [Arg.str exclude_tcp_if.key, Arg.str ""]]) ∧
      (Event.info FMT_SET_STR [Arg.str exclude_tcp_if.key, Arg.str ""]).text =
        some ("Setting " ++ exclude_tcp_if.key ++ " environment variable to " ++ "") :=
  str_first_call_present exclude_tcp_if ⟨env1 "OFI_NCCL_EXCLUDE_TCP_IF" "", true⟩ ""
    (by decide) (by decide)

/-- C7: with the environment variable absent, the first call of a string
accessor returns the default, leaves it cached, and emits no diagnostic. -/
theorem str_first_call_absent (p : OFI_NCCL_PARAM_STR) (w : World)
    (henv : w.getenv p.key = none) :
    (p.get w p.init).map (fun o => (o.ret, o.cell, diagnostics o.trace)) =
      some (some p.default_value, ⟨true, some p.default_value, false⟩, []) := by
  rw [str_get_init, str_locked_absent p w _ _ henv]
  simp [diagnostics]

/-- C7, with `OFI_NCCL_EXCLUDE_TCP_IF` unset: the first call returns
`lo,docker0`. -/
theorem str_first_call_absent_witness :
    (ofi_nccl_exclude_tcp_if ⟨env0, true⟩ exclude_tcp_if.init).map
        (fun o => (o.ret, o.cell, diagnostics o.trace)) =
      some (some "lo,docker0", ⟨true, some "lo,docker0", false⟩, []) :=
  str_first_call_absent exclude_tcp_if ⟨env0, true⟩ (by decide)

/-! ## Later calls -/

theorem int_get_initialized (p : OFI_NCCL_PARAM_INT) (w : World) (c : IntCell)
    (hc : c.initialized = true) : p.get w c = some ⟨c.value, c, []⟩ := by
  simp [OFI_NCCL_PARAM_INT.get, hc]

theorem str_get_initialized (p : OFI_NCCL_PARAM_STR) (w : World) (c : StrCell)
    (hc : c.initialized = true) : p.get w c = some ⟨c.value, c, []⟩ := by
  simp [OFI_NCCL_PARAM_STR.get, hc]

theorem int_calls_initialized (p : OFI_NCCL_PARAM_INT) (ws : List World) (c : IntCell)
    (hc : c.initialized = true) :
    p.calls ws c = some (List.replicate ws.length ⟨c.value, c, []⟩) := by
  induction ws with
  | nil => rfl
  | cons w ws ih =>
    simp [OFI_NCCL_PARAM_INT.calls, int_get_initialized p w c hc, ih, List.replicate_succ]

theorem str_calls_initialized (p : OFI_NCCL_PARAM_STR) (ws : List World) (c : StrCell)
    (hc : c.initialized = true) :
    p.calls ws c = some (List.replicate ws.length ⟨c.value, c, []⟩) := by
  induction ws with
  | nil => rfl
  | cons w ws ih =>
    simp [OFI_NCCL_PARAM_STR.calls, str_get_initialized p w c hc, ih, List.replicate_succ]

theorem int_locked_sets_flag (p : OFI_NCCL_PARAM_INT) (w : World) (c : IntCell)
    (hc : c.initialized = false) : (p.locked w c).1.initialized = true := by
  simp [OFI_NCCL_PARAM_INT.locked, hc]

theorem str_locked_sets_flag (p : OFI_NCCL_PARAM_STR) (w : World) (c : StrCell)
    (hc : c.initialized = false) : (p.locked w c).1.initialized = true := by
  simp [OFI_NCCL_PARAM_STR.locked, hc]

/-- The first call returns, and it returns the value it leaves cached in an
initialized cell. -/
theorem int_first_call (p : OFI_NCCL_PARAM_INT) (w : World) :
    ∃ o, p.get w p.init = some o ∧ o.cell.initialized = true ∧ o.ret = o.cell.value :=
  ⟨_, int_get_init p w, int_locked_sets_flag p w _ rfl, rfl⟩

theorem str_first_call (p : OFI_NCCL_PARAM_STR) (w : World) :
    ∃ o, p.get w p.init = some o ∧ o.cell.initialized = true ∧ o.ret = o.cell.value :=
  ⟨_, str_get_init p w, str_locked_sets_flag p w _ rfl, rfl⟩

/-- A sequence of calls from program start: the first call resolves, the others
repeat its value and leave its cell. -/
theorem int_calls_init (p : OFI_NCCL_PARAM_INT) (w0 : World) (ws : List World) :
    ∃ o, p.get w0 p.init = some o ∧ o.cell.initialized = true ∧
      p.calls (w0 :: ws) p.init =
        some (o :: List.replicate ws.length ⟨o.ret, o.cell, []⟩) := by
  obtain ⟨o, ho, hi, hr⟩ := int_first_call p w0
  refine ⟨o, ho, hi, ?_⟩
  simp [OFI_NCCL_PARAM_INT.calls, ho, int_calls_initialized p ws o.cell hi, hr]

theorem str_calls_init (p : OFI_NCCL_PARAM_STR) (w0 : World) (ws : List World) :
    ∃ o, p.get w0 p.init = some o ∧ o.cell.initialized = true ∧
      p.calls (w0 :: ws) p.init =
        some (o :: List.replicate ws.length ⟨o.ret, o.cell, []⟩) := by
  obtain ⟨o, ho, hi, hr⟩ := str_first_call p w0
  refine ⟨o, ho, hi, ?_⟩
  simp [OFI_NCCL_PARAM_STR.calls, ho, str_calls_initialized p ws o.cell hi, hr]

/-- C8: idempotence. For an integer cell and for a string cell, whatever the
world of the first call and the worlds of the later calls (environment variable
set, changed or unset, heap full or not), the first call returns some `r` and
every call of the sequence returns `r`. -/
theorem idempotence (pi : OFI_NCCL_PARAM_INT) (ps : OFI_NCCL_PARAM_STR) (w0 : World) (ws : List World) :
    (∃ r, (pi.get w0 pi.init).map (fun o => o.ret) = some r ∧
        (pi.calls (w0 :: ws) pi.init).map (List.map fun o => o.ret) =
          some (List.replicate (ws.length + 1) r)) ∧
      (∃ r, (ps.get w0 ps.init).map (fun o => o.ret) = some r ∧
        (ps.calls (w0 :: ws) ps.init).map (List.map fun o => o.ret) =
          some (List.replicate (ws.length + 1) r)) := by
  constructor
  · obtain ⟨o, ho, _, hc⟩ := int_calls_init pi w0 ws
    exact ⟨o.ret, by simp [ho], by simp [hc, List.replicate_succ]⟩
  · obtain ⟨o, ho, _, hc⟩ := str_calls_init ps w0 ws
    exact ⟨o.ret, by simp [ho], by simp [hc, List.replicate_succ]⟩

/-- Idempotence at concrete worlds: `OFI_NCCL_CQ_READ_COUNT` is 8 at the first
call, then invalid, then unset, then 16; every call returns 8. -/
theorem cq_read_count_four_calls :
    (cq_read_count.calls
        [⟨env1 "OFI_NCCL_CQ_READ_COUNT" "8", true⟩,
         ⟨env1 "OFI_NCCL_CQ_READ_COUNT" "abc", true⟩,
         ⟨env0, false⟩,
         ⟨env1 "OFI_NCCL_CQ_READ_COUNT" "16", true⟩]
        cq_read_count.init).map (List.map fun o => o.ret) = some [8, 8, 8, 8] := by
  decide

/-- C9: state invariant. A cell starts with the flag false. Over any sequence
of calls under any worlds every call completes, and the cell after each call is
the cell the first call left, whose flag is true: the flag never reverts and the
cached value is never written again. More generally a call on any cell whose
flag is true leaves the cell as it is. -/
theorem cell_state_invariant (pi : OFI_NCCL_PARAM_INT) (ps : OFI_NCCL_PARAM_STR) (w0 : World) (ws : List World) :
    (pi.init.initialized = false ∧
      (∃ c1, (pi.get w0 pi.init).map (fun o => o.cell) = some c1 ∧
        c1.initialized = true ∧
        (pi.calls (w0 :: ws) pi.init).map (List.map fun o => o.cell) =
          some (List.replicate (ws.length + 1) c1)) ∧
      (∀ (w : World) (c : IntCell), c.initialized = true →
        (pi.get w c).map (fun o => o.cell) = some c)) ∧
    (ps.init.initialized = false ∧
      (∃ c1, (ps.get w0 ps.init).map (fun o => o.cell) = some c1 ∧
        c1.initialized = true ∧
        (ps.calls (w0 :: ws) ps.init).map (List.map fun o => o.cell) =
          some (List.replicate (ws.length + 1) c1)) ∧
      (∀ (w : World) (c : StrCell), c.initialized = true →
        (ps.get w c).map (fun o => o.cell) = some c)) := by
  refine ⟨⟨rfl, ?_, ?_⟩, ⟨rfl, ?_, ?_⟩⟩
  · obtain ⟨o, ho, hi, hc⟩ := int_calls_init pi w0 ws
    exact ⟨o.cell, by simp [ho], hi, by simp [hc, List.replicate_succ]⟩
  · intro w c hc
    simp [int_get_initialized pi w c hc]
  · obtain ⟨o, ho, hi, hc⟩ := str_calls_init ps w0 ws
    exact ⟨o.cell, by simp [ho], hi, by simp [hc, List.replicate_succ]⟩
  · intro w c hc
    simp [str_get_initialized ps w c hc]

/-- C10: with the environment variable present and the copy failing, the first
call of a string accessor returns the default (not a null pointer), leaves the
default cached, and emits one diagnostic, the `Allocation error` message naming
the fallback; every later call returns the default as well. -/
theorem str_first_call_copy_fails (p : OFI_NCCL_PARAM_STR) (w : World) (ws : List World) (s : String)
    (henv : w.getenv p.key = some s) (hheap : w.heap_ok = false) :
    (p.get w p.init).map (fun o => (o.ret, o.cell, diagnostics o.trace)) =
        some (some p.default_value, ⟨true, some p.default_value, false⟩,
          [Event.info FMT_ALLOC [Arg.str p.key, Arg.str p.default_value]]) ∧
      (Event.info FMT_ALLOC [Arg.str p.key, Arg.str p.default_value]).text =
        some ("Allocation error saving result for " ++ p.key ++
          " environment variable.  Falling back to default " ++ p.default_value) ∧
      (p.calls (w :: ws) p.init).map (List.map fun o => o.ret) =
        some (List.replicate (ws.length + 1) (some p.default_value)) := by
  have hget : p.get w p.init =
      some ⟨some p.default_value, ⟨true, some p.default_value, false⟩,
        [Event.lock, Event.getenv p.key,
          Event.info FMT_ALLOC [Arg.str p.key, Arg.str p.default_value], Event.unlock]⟩ := by
    rw [str_get_init, str_locked_no_storage p w _ _ s henv hheap]
    rfl
  refine ⟨?_, text_alloc p.key p.default_value, ?_⟩
  · rw [hget]
    simp [diagnostics]
  · obtain ⟨o, ho, _, hc⟩ := str_calls_init p w ws
    rw [hget] at ho
    have ho1 := (Option.some.inj ho).symm
    subst ho1
    simp [hc, List.replicate_succ]

/-- C10, at `OFI_NCCL_EXCLUDE_TCP_IF="eth0"` with no storage for the copy: the
first call and two later calls return `lo,docker0`. -/
theorem str_first_call_copy_fails_witness :
    (ofi_nccl_exclude_tcp_if ⟨env1 "OFI_NCCL_EXCLUDE_TCP_IF" "eth0", false⟩
          exclude_tcp_if.init).map (fun o => (o.ret, o.cell, diagnostics o.trace)) =
        some (some exclude_tcp_if.default_value,
          ⟨true, some exclude_tcp_if.default_value, false⟩,
          [Event.info FMT_ALLOC
            [Arg.str exclude_tcp_if.key, Arg.str exclude_tcp_if.default_value]]) ∧
      (Event.info FMT_ALLOC
          [Arg.str exclude_tcp_if.key, Arg.str exclude_tcp_if.default_value]).text =
        some ("Allocation error saving result for " ++ exclude_tcp_if.key ++
          " environment variable.  Falling back to default " ++
          exclude_tcp_if.default_value) ∧
      (exclude_tcp_if.calls
          (⟨env1 "OFI_NCCL_EXCLUDE_TCP_IF" "eth0", false⟩ ::
            [⟨env1 "OFI_NCCL_EXCLUDE_TCP_IF" "eth0", true⟩, ⟨env0, true⟩])
          exclude_tcp_if.init).map (List.map fun o => o.ret) =
        some (List.replicate
          ([(⟨env1 "OFI_NCCL_EXCLUDE_TCP_IF" "eth0", true⟩ : World), ⟨env0, true⟩].length + 1)
          (some exclude_tcp_if.default_value)) :=
  str_first_call_copy_fails exclude_tcp_if ⟨env1 "OFI_NCCL_EXCLUDE_TCP_IF" "eth0", false⟩
    [⟨env1 "OFI_NCCL_EXCLUDE_TCP_IF" "eth0", true⟩, ⟨env0, true⟩] "eth0"
    (by decide) (by decide)

/-! ## `strtoll` with leading white space -/

theorem length_takeWhile_add_dropWhile (p : Char → Bool) (l : List Char) :
    (l.takeWhile p).length + (l.dropWhile p).length = l.length := by
  induction l with
  | nil => rfl
  | cons a l ih =>
    by_cases h : p a = true
    · simp only [List.takeWhile, List.dropWhile, h, List.length_cons]
      omega
    · simp [List.takeWhile, List.dropWhile, h]

/-- The conversion of a signed literal that starts `k` characters into the
string. -/
theorem convert_sign_literal (t : List Char) (v : Int) (k e : Nat)
    (h : base0Value t = some v) :
    convert (scanSign t).1 (t.drop (scanSign t).2) (k + (scanSign t).2) e =
      if LLONG_MAX < v then ⟨LLONG_MAX, k + t.length, ERANGE⟩
      else if v < LLONG_MIN then ⟨LLONG_MIN, k + t.length, ERANGE⟩
      else ⟨v, k + t.length, e⟩ := by
  rcases sign_cases t with ⟨u, rfl⟩ | ⟨u, rfl⟩ | ⟨hs, _, hb⟩
  · cases hl : literalBody u with
    | none => simp [base0Value, hl] at h
    | some n =>
      have hv : v = -(n : Int) := by simpa [base0Value, hl, eq_comm] using h
      have hsg : scanSign ('-' :: u) = (true, 1) := rfl
      rw [hsg]
      simp only [List.drop_succ_cons, List.drop_zero]
      rw [convert_literal true u (k + 1) e n hl]
      subst hv
      have hn : (0 : Int) ≤ n := Int.ofNat_nonneg n
      simp only [if_true, LLONG_MAX, LLONG_MIN, List.length_cons, Nat.add_assoc,
        Nat.add_comm 1]
      by_cases hr : (2 : Int) ^ 63 < n
      · rw [if_pos hr, if_neg (by omega), if_pos (by omega)]
      · rw [if_neg hr, if_neg (by omega), if_neg (by omega)]
  · cases hl : literalBody u with
    | none => simp [base0Value, hl] at h
    | some n =>
      have hv : v = (n : Int) := by simpa [base0Value, hl, eq_comm] using h
      have hsg : scanSign ('+' :: u) = (false, 1) := rfl
      rw [hsg]
      simp only [List.drop_succ_cons, List.drop_zero]
      rw [convert_literal false u (k + 1) e n hl]
      subst hv
      have hn : (0 : Int) ≤ n := Int.ofNat_nonneg n
      simp only [Bool.false_eq_true, if_false, LLONG_MAX, LLONG_MIN, List.length_cons,
        Nat.add_assoc, Nat.add_comm 1]
      by_cases hr : (2 : Int) ^ 63 - 1 < n
      · rw [if_pos hr, if_pos hr]
      · rw [if_neg hr, if_neg hr, if_neg (by omega)]
  · rw [hb] at h
    cases hl : literalBody t with
    | none => simp [hl] at h
    | some n =>
      have hv : v = (n : Int) := by simpa [hl, eq_comm] using h
      rw [hs]
      simp only [List.drop_zero, Nat.add_zero]
      rw [convert_literal false t k e n hl]
      subst hv
      have hn : (0 : Int) ≤ n := Int.ofNat_nonneg n
      simp only [Bool.false_eq_true, if_false, LLONG_MAX, LLONG_MIN]
      by_cases hr : (2 : Int) ^ 63 - 1 < n
      · rw [if_pos hr, if_pos hr]
      · rw [if_neg hr, if_neg hr, if_neg (by omega)]

/-- When the conversion of a signed subject reads up to its end, the subject
is a well-formed literal. -/
theorem convert_sign_full (t : List Char) (k e : Nat)
    (h0 : (convert (scanSign t).1 (t.drop (scanSign t).2) (k + (scanSign t).2) e).endptr ≠ 0)
    (h1 : k + t.length ≤
      (convert (scanSign t).1 (t.drop (scanSign t).2) (k + (scanSign t).2) e).endptr) :
    ∃ v, base0Value t = some v := by
  rcases sign_cases t with ⟨u, rfl⟩ | ⟨u, rfl⟩ | ⟨hs, _, hb⟩
  · have hsg : scanSign ('-' :: u) = (true, 1) := rfl
    rw [hsg] at h0 h1
    simp only [List.drop_succ_cons, List.drop_zero, List.length_cons] at h0 h1
    obtain ⟨n, hn⟩ := convert_full true u (k + 1) e h0 (by omega)
    exact ⟨-(n : Int), by simp [base0Value, hn]⟩
  · have hsg : scanSign ('+' :: u) = (false, 1) := rfl
    rw [hsg] at h0 h1
    simp only [List.drop_succ_cons, List.drop_zero, List.length_cons] at h0 h1
    obtain ⟨n, hn⟩ := convert_full false u (k + 1) e h0 (by omega)
    exact ⟨(n : Int), by simp [base0Value, hn]⟩
  · rw [hs] at h0 h1
    simp only [List.drop_zero, Nat.add_zero] at h0 h1
    obtain ⟨n, hn⟩ := convert_full false t k e h0 h1
    exact ⟨(n : Int), by simp [hb, hn]⟩

/-- The function `strtoll` in terms of the string left after white space. -/
theorem strtoll_eq_dropWhile (s : List Char) (e : Nat) :
    strtoll s e =
      convert (scanSign (s.dropWhile isspace)).1
        ((s.dropWhile isspace).drop (scanSign (s.dropWhile isspace)).2)
        ((s.takeWhile isspace).length + (scanSign (s.dropWhile isspace)).2) e := by
  rw [strtoll_eq_convert, drop_length_takeWhile]

/-- On white space followed by a well-formed literal `strtoll` reads the whole
string and returns the value of the literal, or signals a range error. -/
theorem strtoll_spaced_literal (s : List Char) (v : Int) (e : Nat)
    (h : base0Value (s.dropWhile isspace) = some v) :
    strtoll s e =
      if LLONG_MAX < v then ⟨LLONG_MAX, s.length, ERANGE⟩
      else if v < LLONG_MIN then ⟨LLONG_MIN, s.length, ERANGE⟩
      else ⟨v, s.length, e⟩ := by
  rw [strtoll_eq_dropWhile, convert_sign_literal _ v _ e h,
    length_takeWhile_add_dropWhile]

/-- When `strtoll` converts something and stops at the end of the string, the
string is white space followed by a well-formed literal. -/
theorem strtoll_spaced_whole (s : List Char) (e : Nat)
    (h0 : (strtoll s e).endptr ≠ 0) (h1 : s.drop (strtoll s e).endptr = []) :
    ∃ v, base0Value (s.dropWhile isspace) = some v := by
  have hlen : s.length ≤ (strtoll s e).endptr := by simpa using h1
  rw [strtoll_eq_dropWhile] at h0 hlen
  exact convert_sign_full _ _ e h0 (by rw [length_takeWhile_add_dropWhile]; exact hlen)

/-- The test of line 32 accepts exactly the strings that parse, and the value
`strtoll` returned is then the parsed value. -/
theorem accept_iff (s : List Char) (v : Int) :
    (¬ ((strtoll s 0).errno ≠ 0 ∨ (strtoll s 0).endptr = 0 ∨
        s.drop (strtoll s 0).endptr ≠ []) ∧ (strtoll s 0).val = v) ↔
      parsedValue s = some v := by
  unfold parsedValue
  constructor
  · rintro ⟨hacc, hv⟩
    simp only [not_or, not_not] at hacc
    obtain ⟨he, h0, h1⟩ := hacc
    obtain ⟨u, hu⟩ := strtoll_spaced_whole s 0 h0 h1
    have hst := strtoll_spaced_literal s u 0 hu
    rw [hu]
    by_cases hmax : LLONG_MAX < u
    · rw [if_pos hmax] at hst
      rw [hst] at he
      exact absurd (show ERANGE = 0 from he) (by decide)
    · rw [if_neg hmax] at hst
      by_cases hmin : u < LLONG_MIN
      · rw [if_pos hmin] at hst
        rw [hst] at he
        exact absurd (show ERANGE = 0 from he) (by decide)
      · rw [if_neg hmin] at hst
        rw [hst] at hv
        simp only at hv
        subst hv
        simp only [LLONG_MAX, LLONG_MIN] at hmax hmin
        simp only
        rw [if_pos ⟨by omega, by omega⟩]
  · intro h
    cases hu : base0Value (s.dropWhile isspace) with
    | none => simp [hu] at h
    | some u =>
      rw [hu] at h
      simp only at h
      split at h
      · rename_i hr
        have huv : u = v := by simpa using h
        subst huv
        have hst := strtoll_spaced_literal s u 0 hu
        rw [if_neg (by simp only [LLONG_MAX]; omega),
          if_neg (by simp only [LLONG_MIN]; omega)] at hst
        have hne : (s.dropWhile isspace) ≠ [] := base0Value_ne_nil _ u hu
        have hlen : s.length ≠ 0 := by
          have := length_takeWhile_add_dropWhile isspace s
          have : (s.dropWhile isspace).length ≠ 0 := fun h => hne (List.length_eq_zero.mp h)
          omega
        rw [hst]
        simp [hlen]
      · simp at h

/-! ## The first call of an integer accessor, by what the value parses to -/

/-- The first call when the value parses: everything the call does. -/
theorem int_first_parsed (p : OFI_NCCL_PARAM_INT) (w : World) (s : String) (v : Int)
    (henv : w.getenv p.key = some s) (hv : parsedValue s.data = some v) :
    p.get w p.init =
      some ⟨v, ⟨true, v, false⟩,
        [Event.lock, Event.getenv p.key,
          Event.info FMT_SET_INT [Arg.str p.key, Arg.i64 v], Event.unlock]⟩ := by
  obtain ⟨hacc, hval⟩ := (accept_iff s.data v).mpr hv
  have hne : s.data ≠ [] := by
    intro h
    rw [h] at hv
    simp [parsedValue, base0Value, literalBody] at hv
  rw [int_get_init, int_locked_accept p w _ _ s henv hne hacc, hval]
  rfl

/-- The first call when the value is not empty and does not parse: everything
the call does. -/
theorem int_first_unparsed (p : OFI_NCCL_PARAM_INT) (w : World) (s : String)
    (henv : w.getenv p.key = some s) (hne : s ≠ "") (hv : parsedValue s.data = none) :
    p.get w p.init =
      some ⟨p.default_value, ⟨true, p.default_value, false⟩,
        [Event.lock, Event.getenv p.key,
          Event.info FMT_INVALID [Arg.str s, Arg.str p.key, Arg.i64 p.default_value],
          Event.unlock]⟩ := by
  have hs : s.data ≠ [] := fun h => hne (String.ext h)
  have hrej : (strtoll s.data 0).errno ≠ 0 ∨ (strtoll s.data 0).endptr = 0 ∨
      s.data.drop (strtoll s.data 0).endptr ≠ [] := by
    by_contra hacc
    have := (accept_iff s.data (strtoll s.data 0).val).mp ⟨hacc, rfl⟩
    rw [hv] at this
    simp at this
  rw [int_get_init, int_locked_reject p w _ _ s henv hs hrej]
  rfl

/-- The first call when the variable is absent or empty: everything the call
does. -/
theorem int_first_silent (p : OFI_NCCL_PARAM_INT) (w : World)
    (henv : w.getenv p.key = none ∨ w.getenv p.key = some "") :
    p.get w p.init =
      some ⟨p.default_value, ⟨true, p.default_value, false⟩,
        [Event.lock, Event.getenv p.key, Event.unlock]⟩ := by
  rw [int_get_init]
  rcases henv with h | h
  · rw [int_locked_absent p w _ _ h]
    rfl
  · rw [int_locked_empty p w _ _ "" h rfl]
    rfl

theorem dropWhile_spaces_append (ws t : List Char) (hws : ∀ c ∈ ws, isspace c = true)
    (ht : t.takeWhile isspace = []) : (ws ++ t).dropWhile isspace = t := by
  induction ws with
  | nil =>
    cases t with
    | nil => rfl
    | cons a t =>
      by_cases ha : isspace a = true
      · simp [List.takeWhile, ha] at ht
      · simp [List.dropWhile, ha]
  | cons a ws ih =>
    have ha : isspace a = true := hws a (List.mem_cons_self a ws)
    simp only [List.cons_append, List.dropWhile, ha]
    exact ih fun c hc => hws c (List.mem_cons_of_mem a hc)

theorem dropWhile_spaces (ws : List Char) (hws : ∀ c ∈ ws, isspace c = true) :
    ws.dropWhile isspace = [] := by
  have := dropWhile_spaces_append ws [] hws rfl
  simpa using this

/-- C18: leading white space is accepted, a value of white space only is not
the empty value. With the variable set to a run of white space (of any length)
followed by a well-formed literal of in-range value `v`, the first call of an
integer accessor returns `v` and caches it, exactly as with the literal alone;
with the variable set to a non-empty string of white space only, the first call
returns the default and emits the `Invalid value` diagnostic. -/
theorem leading_white_space (p : OFI_NCCL_PARAM_INT) (w w1 w2 : World) (s s2 : String)
    (ws lit : List Char) (v : Int)
    (henv : w.getenv p.key = some s) (hs : s.data = ws ++ lit)
    (hws : ∀ c ∈ ws, isspace c = true)
    (hlit : base0Value lit = some v) (hlo : -(2 : Int) ^ 63 ≤ v) (hhi : v ≤ 2 ^ 63 - 1)
    (henv1 : w1.getenv p.key = some (String.mk lit))
    (henv2 : w2.getenv p.key = some s2) (hne2 : s2 ≠ "")
    (hws2 : ∀ c ∈ s2.data, isspace c = true) :
    (p.get w p.init).map (fun o => (o.ret, o.cell)) = some (v, ⟨true, v, false⟩) ∧
      (p.get w1 p.init).map (fun o => (o.ret, o.cell)) =
        (p.get w p.init).map (fun o => (o.ret, o.cell)) ∧
      (p.get w2 p.init).map (fun o => (o.ret, o.cell, diagnostics o.trace)) =
        some (p.default_value, ⟨true, p.default_value, false⟩,
          [Event.info FMT_INVALID [Arg.str s2, Arg.str p.key, Arg.i64 p.default_value]]) := by
  have hns := base0Value_noSpace lit v hlit
  have hpv : parsedValue s.data = some v := by
    unfold parsedValue
    rw [hs, dropWhile_spaces_append ws lit hws hns, hlit]
    simp only
    rw [if_pos ⟨hlo, hhi⟩]
  have hpv1 : parsedValue (String.mk lit).data = some v := by
    unfold parsedValue
    have : lit.dropWhile isspace = lit := by
      simpa using dropWhile_spaces_append [] lit (by simp) hns
    simp only [this, hlit]
    rw [if_pos ⟨hlo, hhi⟩]
  have hpv2 : parsedValue s2.data = none := by
    unfold parsedValue
    rw [dropWhile_spaces s2.data hws2]
    simp [base0Value, literalBody]
  rw [int_first_parsed p w s v henv hpv, int_first_parsed p w1 _ v henv1 hpv1,
    int_first_unparsed p w2 s2 henv2 hne2 hpv2]
  simp [diagnostics]

/-- C18, at `OFI_NCCL_CQ_READ_COUNT=" 0x10"`, `"0x10"` and `" "`: the first
call returns 16, 16 and the default 4 with an `Invalid value` diagnostic. -/
theorem leading_white_space_witness :
    (ofi_nccl_cq_read_count ⟨env1 "OFI_NCCL_CQ_READ_COUNT" " 0x10", true⟩
        cq_read_count.init).map (fun o => (o.ret, o.cell)) = some (16, ⟨true, 16, false⟩) ∧
      (ofi_nccl_cq_read_count ⟨env1 "OFI_NCCL_CQ_READ_COUNT" "0x10", true⟩
          cq_read_count.init).map (fun o => (o.ret, o.cell)) =
        (ofi_nccl_cq_read_count ⟨env1 "OFI_NCCL_CQ_READ_COUNT" " 0x10", true⟩
          cq_read_count.init).map (fun o => (o.ret, o.cell)) ∧
      (ofi_nccl_cq_read_count ⟨env1 "OFI_NCCL_CQ_READ_COUNT" " ", true⟩
          cq_read_count.init).map (fun o => (o.ret, o.cell, diagnostics o.trace)) =
        some (4, ⟨true, 4, false⟩,
          [Event.info FMT_INVALID [Arg.str " ", Arg.str cq_read_count.key, Arg.i64 4]]) :=
  leading_white_space cq_read_count ⟨env1 "OFI_NCCL_CQ_READ_COUNT" " 0x10", true⟩
    ⟨env1 "OFI_NCCL_CQ_READ_COUNT" "0x10", true⟩ ⟨env1 "OFI_NCCL_CQ_READ_COUNT" " ", true⟩
    " 0x10" " " [' '] ['0', 'x', '1', '0'] 16
    (by decide) (by decide) (by decide) (by decide) (by decide) (by decide)
    (by decide) (by decide) (by decide) (by decide)

/-- Tab and newline in front of a negative value:
`OFI_NCCL_CQ_READ_COUNT="\t\n-7"` gives -7. -/
theorem cq_read_count_tab_newline :
    (ofi_nccl_cq_read_count ⟨env1 "OFI_NCCL_CQ_READ_COUNT" "\t\n-7", true⟩
        cq_read_count.init).map (fun o => (o.ret, o.cell)) = some (-7, ⟨true, -7, false⟩) := by
  decide

/-! ## Errors against the unset variable -/

/-- The first call of a string accessor when the copy fails: everything the
call does. -/
theorem str_first_no_storage (p : OFI_NCCL_PARAM_STR) (w : World) (s : String)
    (henv : w.getenv p.key = some s) (hheap : w.heap_ok = false) :
    p.get w p.init =
      some ⟨some p.default_value, ⟨true, some p.default_value, false⟩,
        [Event.lock, Event.getenv p.key,
          Event.info FMT_ALLOC [Arg.str p.key, Arg.str p.default_value], Event.unlock]⟩ := by
  rw [str_get_init, str_locked_no_storage p w _ _ s henv hheap]
  rfl

/-- The first call of a string accessor when the variable is absent: everything
the call does. -/
theorem str_first_silent (p : OFI_NCCL_PARAM_STR) (w : World)
    (henv : w.getenv p.key = none) :
    p.get w p.init =
      some ⟨some p.default_value, ⟨true, some p.default_value, false⟩,
        [Event.lock, Event.getenv p.key, Event.unlock]⟩ := by
  rw [str_get_init, str_locked_absent p w _ _ henv]
  rfl

/-- C12: an error behaves as if the variable were unset. For an integer cell
whose variable holds a non-empty value that does not parse (no digits,
trailing characters, out of range), and for a string cell whose variable is
present while the copy fails, the first call returns the value and leaves the
cell (flag, cached value, mutex) that the first call leaves when the variable
is absent; the operations of the two runs differ only in the one diagnostic,
which the run with the absent variable does not emit. -/
theorem error_as_if_unset (pi : OFI_NCCL_PARAM_INT) (ps : OFI_NCCL_PARAM_STR)
    (w w0 u u0 : World) (s t : String)
    (henv : w.getenv pi.key = some s) (hne : s ≠ "") (hfail : parsedValue s.data = none)
    (habs : w0.getenv pi.key = none)
    (hsenv : u.getenv ps.key = some t) (hheap : u.heap_ok = false)
    (hsabs : u0.getenv ps.key = none) :
    (∃ o o0, pi.get w pi.init = some o ∧ pi.get w0 pi.init = some o0 ∧
        o.ret = o0.ret ∧ o.cell = o0.cell ∧ withoutDiagnostics o.trace = o0.trace ∧
        (diagnostics o.trace).length = 1 ∧ diagnostics o0.trace = []) ∧
      (∃ o o0, ps.get u ps.init = some o ∧ ps.get u0 ps.init = some o0 ∧
        o.ret = o0.ret ∧ o.cell = o0.cell ∧ withoutDiagnostics o.trace = o0.trace ∧
        (diagnostics o.trace).length = 1 ∧ diagnostics o0.trace = []) := by
  constructor
  · exact ⟨_, _, int_first_unparsed pi w s henv hne hfail, int_first_silent pi w0 (Or.inl habs),
      rfl, rfl, by simp [withoutDiagnostics], by simp [diagnostics], by simp [diagnostics]⟩
  · exact ⟨_, _, str_first_no_storage ps u t hsenv hheap, str_first_silent ps u0 hsabs,
      rfl, rfl, by simp [withoutDiagnostics], by simp [diagnostics], by simp [diagnostics]⟩

/-- C12, at `OFI_NCCL_NIC_DUP_CONNS="3x"` against the unset variable, and at
`OFI_NCCL_EXCLUDE_TCP_IF="eth0"` without storage against the unset variable. -/
theorem error_as_if_unset_witness :
    (∃ o o0,
        nic_dup_conns.get ⟨env1 "OFI_NCCL_NIC_DUP_CONNS" "3x", true⟩ nic_dup_conns.init =
          some o ∧
        nic_dup_conns.get ⟨env0, true⟩ nic_dup_conns.init = some o0 ∧
        o.ret = o0.ret ∧ o.cell = o0.cell ∧ withoutDiagnostics o.trace = o0.trace ∧
        (diagnostics o.trace).length = 1 ∧ diagnostics o0.trace = []) ∧
      (∃ o o0,
        exclude_tcp_if.get ⟨env1 "OFI_NCCL_EXCLUDE_TCP_IF" "eth0", false⟩
          exclude_tcp_if.init = some o ∧
        exclude_tcp_if.get ⟨env0, true⟩ exclude_tcp_if.init = some o0 ∧
        o.ret = o0.ret ∧ o.cell = o0.cell ∧ withoutDiagnostics o.trace = o0.trace ∧
        (diagnostics o.trace).length = 1 ∧ diagnostics o0.trace = []) :=
  error_as_if_unset nic_dup_conns exclude_tcp_if
    ⟨env1 "OFI_NCCL_NIC_DUP_CONNS" "3x", true⟩ ⟨env0, true⟩
    ⟨env1 "OFI_NCCL_EXCLUDE_TCP_IF" "eth0", false⟩ ⟨env0, true⟩ "3x" "eth0"
    (by decide) (by decide) (by decide) (by decide) (by decide) (by decide) (by decide)

/-- The three kinds of integer error of the specification do not parse: no
digits, a literal with trailing characters, a literal out of range. -/
theorem parsedValue_error_kinds :
    parsedValue "abc".data = none ∧ parsedValue "3x".data = none ∧
      parsedValue "99999999999999999999".data = none ∧ parsedValue "8 ".data = none ∧
      parsedValue "0x".data = none ∧ parsedValue " 8".data = some 8 := by
  decide

/-- Each kind of integer error named by the specification is a value that does
not parse: no conversion at all, a literal followed by a remainder that does
not extend it, a literal whose value is out of range. -/
theorem parsedValue_none_of_error (s : List Char)
    (h : noConversion s = true ∨
      (∃ lit r v, s = lit ++ r ∧ base0Value lit = some v ∧ r ≠ [] ∧
        extendsLiteral lit r = false) ∨
      (∃ v, base0Value s = some v ∧ (v < -(2 : Int) ^ 63 ∨ 2 ^ 63 - 1 < v))) :
    parsedValue s = none := by
  rcases h with h | ⟨lit, r, v, rfl, hlit, hr, hext⟩ | ⟨v, hv, hout⟩
  · cases hp : parsedValue s with
    | none => rfl
    | some v =>
      have hacc := ((accept_iff s v).mpr hp).1
      rw [strtoll_noConversion s 0 h] at hacc
      simp at hacc
  · have hlne := base0Value_ne_nil lit v hlit
    have hns := takeWhile_append_of_nil isspace lit r hlne (base0Value_noSpace lit v hlit)
    have hd : (lit ++ r).dropWhile isspace = lit ++ r := by
      simpa using dropWhile_spaces_append [] (lit ++ r) (by simp) hns
    have hmem : r ∈ r.inits := (List.mem_inits r r).mpr ⟨[], List.append_nil r⟩
    have hall := List.any_eq_false.mp hext r hmem
    have hnone : base0Value (lit ++ r) = none := by
      cases hb : base0Value (lit ++ r) with
      | none => rfl
      | some u => simp [hb, hr] at hall
    simp [parsedValue, hd, hnone]
  · have hd : s.dropWhile isspace = s := by
      simpa using dropWhile_spaces_append [] s (by simp) (base0Value_noSpace s v hv)
    unfold parsedValue
    rw [hd, hv]
    simp only
    rw [if_neg (by omega)]

/-! ## The text of the `Setting` diagnostic of an integer cell -/

theorem text_set_int (k : String) (v : Int) :
    (Event.info FMT_SET_INT [Arg.str k, Arg.i64 v]).text =
      some ("Setting " ++ k ++ " environment variable to " ++ Nat.repr (v % 2 ^ 64).toNat) := by
  have h : vformat FMT_SET_INT.data [Arg.str k, Arg.i64 v] =
      "Setting ".data ++ (k.data ++ (" environment variable to ".data ++
        ((Nat.repr (v % 2 ^ 64).toNat).data ++ []))) := rfl
  simp only [Event.text, h]
  congr 1
  apply String.ext
  simp [String.data_append]

/-- What the accessor logs on an accepted value, whatever its sign: the
variable name, and the value as `%lu` prints it, that is modulo `2 ^ 64`. -/
theorem int_first_parsed_text (p : OFI_NCCL_PARAM_INT) (w : World) (s : String) (v : Int)
    (henv : w.getenv p.key = some s) (hv : parsedValue s.data = some v) :
    (p.get w p.init).map (fun o => (diagnostics o.trace).map Event.text) =
      some [some ("Setting " ++ p.key ++ " environment variable to " ++
        Nat.repr (v % 2 ^ 64).toNat)] := by
  rw [int_first_parsed p w s v henv hv]
  simp [diagnostics, text_set_int]

set_option maxRecDepth 100000 in
/-- C13, the code at `OFI_NCCL_CQ_READ_COUNT="-1"`: the value -1 is accepted,
cached and returned, and the one diagnostic of the call reads
`Setting OFI_NCCL_CQ_READ_COUNT environment variable to 18446744073709551615`:
it holds the variable name but not the decimal rendering `-1` of the value. -/
theorem setting_message_minus_one :
    (ofi_nccl_cq_read_count ⟨env1 "OFI_NCCL_CQ_READ_COUNT" "-1", true⟩
        cq_read_count.init).map
          (fun o => (o.ret, o.cell, (diagnostics o.trace).map Event.text)) =
        some (-1, ⟨true, -1, false⟩,
          [some "Setting OFI_NCCL_CQ_READ_COUNT environment variable to 18446744073709551615"]) ∧
      containsText
        "Setting OFI_NCCL_CQ_READ_COUNT environment variable to 18446744073709551615".data
        "OFI_NCCL_CQ_READ_COUNT".data = true ∧
      containsText
        "Setting OFI_NCCL_CQ_READ_COUNT environment variable to 18446744073709551615".data
        (toString (-1 : Int)).data = false := by
  decide

set_option maxRecDepth 100000 in
/-- For a value that is not negative the message does hold its decimal
rendering: `OFI_NCCL_CQ_READ_COUNT="8"`. -/
theorem setting_message_eight :
    (ofi_nccl_cq_read_count ⟨env1 "OFI_NCCL_CQ_READ_COUNT" "8", true⟩
        cq_read_count.init).map (fun o => (diagnostics o.trace).map Event.text) =
      some [some "Setting OFI_NCCL_CQ_READ_COUNT environment variable to 8"] := by
  decide

/-! ## The second test of the flag, read-once, and the mutex -/

/-- The accessor is the first test of the flag followed by the slow path. -/
theorem int_get_eq_slow (p : OFI_NCCL_PARAM_INT) (w : World) (c : IntCell) :
    p.get w c = if c.initialized then some ⟨c.value, c, []⟩ else p.slow w c := rfl

theorem str_get_eq_slow (p : OFI_NCCL_PARAM_STR) (w : World) (c : StrCell) :
    p.get w c = if c.initialized then some ⟨c.value, c, []⟩ else p.slow w c := rfl

theorem int_locked_initialized (p : OFI_NCCL_PARAM_INT) (w : World) (c : IntCell)
    (hc : c.initialized = true) : p.locked w c = (c, []) := by
  simp [OFI_NCCL_PARAM_INT.locked, hc]

theorem str_locked_initialized (p : OFI_NCCL_PARAM_STR) (w : World) (c : StrCell)
    (hc : c.initialized = true) : p.locked w c = (c, []) := by
  simp [OFI_NCCL_PARAM_STR.locked, hc]

/-- C14: the re-check under the mutex. When the slow path of an accessor is
entered on a cell that is already initialized (the flag was read false before
another caller resolved the cell) and whose mutex is free, the locked section
changes nothing and performs no operation, and the call, which only takes and
releases the mutex, returns the cached value and leaves the cell as it was: no
lookup, no parse or copy, no diagnostic. -/
theorem recheck_under_lock (pi : OFI_NCCL_PARAM_INT) (ps : OFI_NCCL_PARAM_STR) (w : World)
    (ci : IntCell) (cs : StrCell)
    (hi : ci.initialized = true) (hil : ci.lock = false)
    (hs : cs.initialized = true) (hsl : cs.lock = false) :
    (pi.locked w { ci with lock := true } = ({ ci with lock := true }, []) ∧
        pi.slow w ci = some ⟨ci.value, ci, [Event.lock, Event.unlock]⟩) ∧
      (ps.locked w { cs with lock := true } = ({ cs with lock := true }, []) ∧
        ps.slow w cs = some ⟨cs.value, cs, [Event.lock, Event.unlock]⟩) := by
  refine ⟨⟨int_locked_initialized pi w _ hi, ?_⟩, ⟨str_locked_initialized ps w _ hs, ?_⟩⟩
  · have h := int_locked_initialized pi w { ci with lock := true } hi
    obtain ⟨i, v, l⟩ := ci
    simp only at hil
    subst hil
    simp [OFI_NCCL_PARAM_INT.slow, pthread_mutex_lock, pthread_mutex_unlock, h]
  · have h := str_locked_initialized ps w { cs with lock := true } hs
    obtain ⟨i, v, l⟩ := cs
    simp only at hsl
    subst hsl
    simp [OFI_NCCL_PARAM_STR.slow, pthread_mutex_lock, pthread_mutex_unlock, h]

/-- C14, at a `cq_read_count` cell resolved to 8 and an `exclude_tcp_if` cell
resolved to `eth0`, with the variables now set to other values. -/
theorem recheck_under_lock_witness :
    (cq_read_count.locked
          ⟨fun _ => some "16", true⟩ { (⟨true, 8, false⟩ : IntCell) with lock := true } =
        ({ (⟨true, 8, false⟩ : IntCell) with lock := true }, []) ∧
        cq_read_count.slow ⟨fun _ => some "16", true⟩ ⟨true, 8, false⟩ =
          some ⟨(⟨true, 8, false⟩ : IntCell).value, ⟨true, 8, false⟩,
            [Event.lock, Event.unlock]⟩) ∧
      (exclude_tcp_if.locked
          ⟨fun _ => some "16", true⟩
          { (⟨true, some "eth0", false⟩ : StrCell) with lock := true } =
        ({ (⟨true, some "eth0", false⟩ : StrCell) with lock := true }, []) ∧
        exclude_tcp_if.slow ⟨fun _ => some "16", true⟩ ⟨true, some "eth0", false⟩ =
          some ⟨(⟨true, some "eth0", false⟩ : StrCell).value, ⟨true, some "eth0", false⟩,
            [Event.lock, Event.unlock]⟩) :=
  recheck_under_lock cq_read_count exclude_tcp_if ⟨fun _ => some "16", true⟩
    ⟨true, 8, false⟩ ⟨true, some "eth0", false⟩ rfl rfl rfl rfl

/-- The operations of the locked section of an integer accessor on a cell
that is not initialized: one lookup of the variable, then at most one
diagnostic. -/
theorem int_locked_trace (p : OFI_NCCL_PARAM_INT) (w : World) (c : IntCell)
    (hc : c.initialized = false) :
    ∃ ds, (p.locked w c).2 = Event.getenv p.key :: ds ∧
      (ds = [] ∨ ∃ f a, ds = [Event.info f a]) := by
  unfold OFI_NCCL_PARAM_INT.locked
  simp only [hc, Bool.not_false, if_true]
  refine ⟨_, rfl, ?_⟩
  split
  · split
    · split
      · exact Or.inr ⟨_, _, rfl⟩
      · exact Or.inr ⟨_, _, rfl⟩
    · exact Or.inl rfl
  · exact Or.inl rfl

theorem str_locked_trace (p : OFI_NCCL_PARAM_STR) (w : World) (c : StrCell)
    (hc : c.initialized = false) :
    ∃ ds, (p.locked w c).2 = Event.getenv p.key :: ds ∧
      (ds = [] ∨ ∃ f a, ds = [Event.info f a]) := by
  unfold OFI_NCCL_PARAM_STR.locked
  simp only [hc, Bool.not_false, if_true]
  refine ⟨_, rfl, ?_⟩
  split
  · split
    · exact Or.inr ⟨_, _, rfl⟩
    · exact Or.inr ⟨_, _, rfl⟩
  · exact Or.inl rfl

/-- The operations of a first call: the mutex taken, one lookup, at most one
diagnostic, the mutex released. -/
theorem int_first_trace (p : OFI_NCCL_PARAM_INT) (w : World) :
    ∃ o ds, p.get w p.init = some o ∧
      o.trace = Event.lock :: Event.getenv p.key :: ds ++ [Event.unlock] ∧
      (ds = [] ∨ ∃ f a, ds = [Event.info f a]) := by
  obtain ⟨ds, h1, h2⟩ := int_locked_trace p w ⟨false, p.default_value, true⟩ rfl
  refine ⟨_, ds, int_get_init p w, ?_, h2⟩
  simp only [h1, List.cons_append]

theorem str_first_trace (p : OFI_NCCL_PARAM_STR) (w : World) :
    ∃ o ds, p.get w p.init = some o ∧
      o.trace = Event.lock :: Event.getenv p.key :: ds ++ [Event.unlock] ∧
      (ds = [] ∨ ∃ f a, ds = [Event.info f a]) := by
  obtain ⟨ds, h1, h2⟩ := str_locked_trace p w ⟨false, some p.default_value, true⟩ rfl
  refine ⟨_, ds, str_get_init p w, ?_, h2⟩
  simp only [h1, List.cons_append]

theorem trace_counts (k : String) (ds : List Event)
    (h : ds = [] ∨ ∃ f a, ds = [Event.info f a]) :
    lookups (Event.lock :: Event.getenv k :: ds ++ [Event.unlock]) = [k] ∧
      (diagnostics (Event.lock :: Event.getenv k :: ds ++ [Event.unlock])).length ≤ 1 ∧
      lockOps (Event.lock :: Event.getenv k :: ds ++ [Event.unlock]) =
        [Event.lock, Event.unlock] := by
  rcases h with rfl | ⟨f, a, rfl⟩ <;> simp [lookups, diagnostics, lockOps]

/-- C15: read-once. In any sequence of one or more calls of an accessor from
program start, under any worlds, the first call looks the variable up exactly
once and emits at most one diagnostic, and each later call performs no
operation at all: no lookup, no mutex operation, no diagnostic. So the whole
sequence has exactly one lookup and at most one diagnostic. -/
theorem read_once (pi : OFI_NCCL_PARAM_INT) (ps : OFI_NCCL_PARAM_STR) (w0 : World)
    (ws : List World) :
    (∃ tr, (pi.calls (w0 :: ws) pi.init).map (List.map fun o => o.trace) =
          some (tr :: List.replicate ws.length []) ∧
        lookups tr = [pi.key] ∧ (diagnostics tr).length ≤ 1) ∧
      (∃ tr, (ps.calls (w0 :: ws) ps.init).map (List.map fun o => o.trace) =
          some (tr :: List.replicate ws.length []) ∧
        lookups tr = [ps.key] ∧ (diagnostics tr).length ≤ 1) := by
  constructor
  · obtain ⟨o, ho, _, hc⟩ := int_calls_init pi w0 ws
    obtain ⟨o1, ds, ho1, htr, hds⟩ := int_first_trace pi w0
    rw [ho] at ho1
    have ho2 := Option.some.inj ho1
    subst ho2
    refine ⟨o.trace, by simp [hc], ?_, ?_⟩
    · rw [htr]; exact (trace_counts pi.key ds hds).1
    · rw [htr]; exact (trace_counts pi.key ds hds).2.1
  · obtain ⟨o, ho, _, hc⟩ := str_calls_init ps w0 ws
    obtain ⟨o1, ds, ho1, htr, hds⟩ := str_first_trace ps w0
    rw [ho] at ho1
    have ho2 := Option.some.inj ho1
    subst ho2
    refine ⟨o.trace, by simp [hc], ?_, ?_⟩
    · rw [htr]; exact (trace_counts ps.key ds hds).1
    · rw [htr]; exact (trace_counts ps.key ds hds).2.1

/-- Read-once at concrete worlds: three calls of `ofi_nccl_cq_read_count`, the
variable being 8, then 16, then unset. -/
theorem cq_read_count_three_traces :
    (cq_read_count.calls
        [⟨env1 "OFI_NCCL_CQ_READ_COUNT" "8", true⟩,
         ⟨env1 "OFI_NCCL_CQ_READ_COUNT" "16", true⟩, ⟨env0, true⟩]
        cq_read_count.init).map (List.map fun o => o.trace) =
      some [[Event.lock, Event.getenv "OFI_NCCL_CQ_READ_COUNT",
              Event.info FMT_SET_INT [Arg.str "OFI_NCCL_CQ_READ_COUNT", Arg.i64 8],
              Event.unlock], [], []] := by
  decide

/-- C19: lock balance. A call of an accessor on any cell whose mutex is free,
under any world, returns, and returns with the mutex free; it performs no
mutex operation when the cell is initialized (fast path) and otherwise exactly
one acquisition followed by exactly one release, whichever branch the
resolution takes. -/
theorem lock_balance (pi : OFI_NCCL_PARAM_INT) (ps : OFI_NCCL_PARAM_STR) (w : World)
    (ci : IntCell) (cs : StrCell) (hil : ci.lock = false) (hsl : cs.lock = false) :
    (∃ o, pi.get w ci = some o ∧ o.cell.lock = false ∧
        lockOps o.trace = if ci.initialized then [] else [Event.lock, Event.unlock]) ∧
      (∃ o, ps.get w cs = some o ∧ o.cell.lock = false ∧
        lockOps o.trace = if cs.initialized then [] else [Event.lock, Event.unlock]) := by
  constructor
  · obtain ⟨i, v, l⟩ := ci
    simp only at hil
    subst hil
    cases i with
    | true => exact ⟨_, int_get_initialized pi w _ rfl, rfl, rfl⟩
    | false =>
      obtain ⟨ds, h1, h2⟩ := int_locked_trace pi w ⟨false, v, true⟩ rfl
      refine ⟨_, rfl, rfl, ?_⟩
      show lockOps (Event.lock :: (pi.locked w ⟨false, v, true⟩).2 ++ [Event.unlock]) = _
      rw [h1]
      exact (trace_counts pi.key ds h2).2.2
  · obtain ⟨i, v, l⟩ := cs
    simp only at hsl
    subst hsl
    cases i with
    | true => exact ⟨_, str_get_initialized ps w _ rfl, rfl, rfl⟩
    | false =>
      obtain ⟨ds, h1, h2⟩ := str_locked_trace ps w ⟨false, v, true⟩ rfl
      refine ⟨_, rfl, rfl, ?_⟩
      show lockOps (Event.lock :: (ps.locked w ⟨false, v, true⟩).2 ++ [Event.unlock]) = _
      rw [h1]
      exact (trace_counts ps.key ds h2).2.2

/-- C19, at the fresh `cq_read_count` cell with an invalid value and the
`exclude_tcp_if` cell already resolved. -/
theorem lock_balance_witness :
    (∃ o, cq_read_count.get ⟨env1 "OFI_NCCL_CQ_READ_COUNT" "abc", false⟩
          cq_read_count.init = some o ∧ o.cell.lock = false ∧
        lockOps o.trace =
          if cq_read_count.init.initialized then [] else [Event.lock, Event.unlock]) ∧
      (∃ o, exclude_tcp_if.get ⟨env1 "OFI_NCCL_CQ_READ_COUNT" "abc", false⟩
          ⟨true, some "eth0", false⟩ = some o ∧ o.cell.lock = false ∧
        lockOps o.trace =
          if (⟨true, some "eth0", false⟩ : StrCell).initialized then []
          else [Event.lock, Event.unlock]) :=
  lock_balance cq_read_count exclude_tcp_if ⟨env1 "OFI_NCCL_CQ_READ_COUNT" "abc", false⟩
    cq_read_count.init ⟨true, some "eth0", false⟩ rfl rfl

/-- A call on a cell that is not initialized and whose mutex is held does not
return. -/
theorem int_get_blocked (p : OFI_NCCL_PARAM_INT) (w : World) (v : Int) :
    p.get w ⟨false, v, true⟩ = none := rfl

/-! ## Independence of the cells -/

/-- A call of one accessor leaves the cell of every other parameter alone. -/
theorem call_frame (σ σ1 : Registry) (w : World) (a b : ParamId) (v : Value)
    (hab : a ≠ b) (h : σ.call w a = some (v, σ1)) : σ1.cell b = σ.cell b := by
  cases a <;> cases b <;> first | exact absurd rfl hab | skip
  all_goals
    simp only [Registry.call, Option.map_eq_some'] at h
    obtain ⟨o, _, ho⟩ := h
    have h2 := (Prod.mk.inj ho).2
    subst h2
    rfl

/-- A call is the accessor run on its own cell, the cell put back. -/
theorem call_eq_run (σ : Registry) (w : World) (a : ParamId) :
    σ.call w a = (σ.run w a).map fun r => (r.1, σ.put a r.2) := by
  cases a <;> simp only [Registry.call, Registry.run, Option.map_map] <;> rfl

theorem run_put (σ : Registry) (w : World) (a b : ParamId) (c : Cell) (hab : a ≠ b) :
    (σ.put a c).run w b = σ.run w b := by
  cases a <;> cases b <;> first | exact absurd rfl hab | skip
  all_goals cases c <;> rfl

theorem put_put (σ : Registry) (a b : ParamId) (ca cb : Cell) (hab : a ≠ b) :
    (σ.put a ca).put b cb = (σ.put b cb).put a ca := by
  cases a <;> cases b <;> first | exact absurd rfl hab | skip
  all_goals cases ca <;> cases cb <;> rfl

/-- Two calls on distinct parameters commute. -/
theorem call2_comm (σ : Registry) (a b : ParamId) (hab : a ≠ b) (wa wb : World) :
    σ.call2 a wa b wb = (σ.call2 b wb a wa).map (fun r => (r.2.1, r.1, r.2.2)) := by
  simp only [Registry.call2, call_eq_run]
  cases ha : σ.run wa a with
  | none =>
    cases hb : σ.run wb b with
    | none => rfl
    | some rb => simp [run_put σ wa b a rb.2 (Ne.symm hab), ha]
  | some ra =>
    cases hb : σ.run wb b with
    | none => simp [run_put σ wb a b ra.2 hab, hb]
    | some rb =>
      simp [run_put σ wb a b ra.2 hab, run_put σ wa b a rb.2 (Ne.symm hab), ha, hb,
        put_put σ a b ra.2 rb.2 hab]

/-- From program start every accessor returns. -/
theorem run_init (w : World) (a : ParamId) : ∃ r, Registry.init.run w a = some r := by
  cases a
  · obtain ⟨o, ho, _⟩ := int_first_call use_ipv6_tcp w
    exact ⟨(Value.int o.ret, Cell.int o.cell), by
      simp [Registry.run, Registry.init, ofi_nccl_use_ipv6_tcp, ho]⟩
  · obtain ⟨o, ho, _⟩ := str_first_call exclude_tcp_if w
    exact ⟨(Value.str o.ret, Cell.str o.cell), by
      simp [Registry.run, Registry.init, ofi_nccl_exclude_tcp_if, ho]⟩
  · obtain ⟨o, ho, _⟩ := int_first_call gdr_flush_disable w
    exact ⟨(Value.int o.ret, Cell.int o.cell), by
      simp [Registry.run, Registry.init, ofi_nccl_gdr_flush_disable, ho]⟩
  · obtain ⟨o, ho, _⟩ := int_first_call nic_dup_conns w
    exact ⟨(Value.int o.ret, Cell.int o.cell), by
      simp [Registry.run, Registry.init, ofi_nccl_nic_dup_conns, ho]⟩
  · obtain ⟨o, ho, _⟩ := int_first_call cuda_flush_enable w
    exact ⟨(Value.int o.ret, Cell.int o.cell), by
      simp [Registry.run, Registry.init, ofi_nccl_cuda_flush_enable, ho]⟩
  · obtain ⟨o, ho, _⟩ := int_first_call mr_key_size w
    exact ⟨(Value.int o.ret, Cell.int o.cell), by
      simp [Registry.run, Registry.init, ofi_nccl_mr_key_size, ho]⟩
  · obtain ⟨o, ho, _⟩ := int_first_call cq_read_count w
    exact ⟨(Value.int o.ret, Cell.int o.cell), by
      simp [Registry.run, Registry.init, ofi_nccl_cq_read_count, ho]⟩

/-- From program start two calls on distinct parameters return. -/
theorem call2_init (a b : ParamId) (hab : a ≠ b) (wa wb : World) :
    ∃ r, Registry.init.call2 a wa b wb = some r := by
  obtain ⟨ra, ha⟩ := run_init wa a
  obtain ⟨rb, hb⟩ := run_init wb b
  refine ⟨(ra.1, rb.1, (Registry.init.put a ra.2).put b rb.2), ?_⟩
  simp [Registry.call2, call_eq_run, ha, run_put Registry.init wb a b ra.2 hab, hb]

/-- C16: the cells are independent. For two distinct declared parameters `a`
and `b`, a call of the accessor of `a` on any program state leaves the cell of
`b` (flag, cached value, mutex) unchanged; calling the accessor of `a` and then
that of `b` gives the same two values and the same final state as calling them
in the other order, from any program state; and from program start both orders
return, so the first calls of `a` and `b` return the same values in either
order. -/
theorem cells_independent (a b : ParamId) (hab : a ≠ b) (wa wb : World) (σ : Registry) :
    (∀ v σ1, σ.call wa a = some (v, σ1) → σ1.cell b = σ.cell b) ∧
      σ.call2 a wa b wb =
        (σ.call2 b wb a wa).map (fun r => (r.2.1, r.1, r.2.2)) ∧
      (∃ va vb σ2, Registry.init.call2 a wa b wb = some (va, vb, σ2) ∧
        Registry.init.call2 b wb a wa = some (vb, va, σ2)) := by
  refine ⟨fun v σ1 h => call_frame σ σ1 wa a b v hab h, call2_comm σ a b hab wa wb, ?_⟩
  obtain ⟨r, hr⟩ := call2_init b a (Ne.symm hab) wb wa
  have hc := call2_comm Registry.init a b hab wa wb
  rw [hr] at hc
  exact ⟨r.2.1, r.1, r.2.2, hc, hr⟩

/-- C16, at `cq_read_count` and `exclude_tcp_if` from program start, with both
variables set. -/
theorem cells_independent_witness :
    (∀ v σ1,
        Registry.init.call
            ⟨setenv (env1 "OFI_NCCL_CQ_READ_COUNT" "8") "OFI_NCCL_EXCLUDE_TCP_IF" "eth0", true⟩
            ParamId.cq_read_count = some (v, σ1) →
          σ1.cell ParamId.exclude_tcp_if = Registry.init.cell ParamId.exclude_tcp_if) ∧
      Registry.init.call2 ParamId.cq_read_count
          ⟨setenv (env1 "OFI_NCCL_CQ_READ_COUNT" "8") "OFI_NCCL_EXCLUDE_TCP_IF" "eth0", true⟩
          ParamId.exclude_tcp_if
          ⟨setenv (env1 "OFI_NCCL_CQ_READ_COUNT" "8") "OFI_NCCL_EXCLUDE_TCP_IF" "eth0", true⟩ =
        (Registry.init.call2 ParamId.exclude_tcp_if
          ⟨setenv (env1 "OFI_NCCL_CQ_READ_COUNT" "8") "OFI_NCCL_EXCLUDE_TCP_IF" "eth0", true⟩
          ParamId.cq_read_count
          ⟨setenv (env1 "OFI_NCCL_CQ_READ_COUNT" "8") "OFI_NCCL_EXCLUDE_TCP_IF" "eth0",
            true⟩).map (fun r => (r.2.1, r.1, r.2.2)) ∧
      (∃ va vb σ2,
        Registry.init.call2 ParamId.cq_read_count
            ⟨setenv (env1 "OFI_NCCL_CQ_READ_COUNT" "8") "OFI_NCCL_EXCLUDE_TCP_IF" "eth0", true⟩
            ParamId.exclude_tcp_if
            ⟨setenv (env1 "OFI_NCCL_CQ_READ_COUNT" "8") "OFI_NCCL_EXCLUDE_TCP_IF" "eth0",
              true⟩ = some (va, vb, σ2) ∧
          Registry.init.call2 ParamId.exclude_tcp_if
            ⟨setenv (env1 "OFI_NCCL_CQ_READ_COUNT" "8") "OFI_NCCL_EXCLUDE_TCP_IF" "eth0", true⟩
            ParamId.cq_read_count
            ⟨setenv (env1 "OFI_NCCL_CQ_READ_COUNT" "8") "OFI_NCCL_EXCLUDE_TCP_IF" "eth0",
              true⟩ = some (vb, va, σ2)) :=
  cells_independent ParamId.cq_read_count ParamId.exclude_tcp_if (by decide)
    ⟨setenv (env1 "OFI_NCCL_CQ_READ_COUNT" "8") "OFI_NCCL_EXCLUDE_TCP_IF" "eth0", true⟩
    ⟨setenv (env1 "OFI_NCCL_CQ_READ_COUNT" "8") "OFI_NCCL_EXCLUDE_TCP_IF" "eth0", true⟩
    Registry.init

/-- The two orders at concrete worlds: 8 and `eth0` either way, and the same
final state. -/
theorem cq_read_count_exclude_tcp_if_orders :
    Registry.init.call2 ParamId.cq_read_count
        ⟨setenv (env1 "OFI_NCCL_CQ_READ_COUNT" "8") "OFI_NCCL_EXCLUDE_TCP_IF" "eth0", true⟩
        ParamId.exclude_tcp_if
        ⟨setenv (env1 "OFI_NCCL_CQ_READ_COUNT" "8") "OFI_NCCL_EXCLUDE_TCP_IF" "eth0", true⟩ =
      some (Value.int 8, Value.str (some "eth0"),
        { Registry.init with
          st_cq_read_count := ⟨true, 8, false⟩,
          st_exclude_tcp_if := ⟨true, some "eth0", false⟩ }) ∧
    Registry.init.call2 ParamId.exclude_tcp_if
        ⟨setenv (env1 "OFI_NCCL_CQ_READ_COUNT" "8") "OFI_NCCL_EXCLUDE_TCP_IF" "eth0", true⟩
        ParamId.cq_read_count
        ⟨setenv (env1 "OFI_NCCL_CQ_READ_COUNT" "8") "OFI_NCCL_EXCLUDE_TCP_IF" "eth0", true⟩ =
      some (Value.str (some "eth0"), Value.int 8,
        { Registry.init with
          st_cq_read_count := ⟨true, 8, false⟩,
          st_exclude_tcp_if := ⟨true, some "eth0", false⟩ }) := by
  constructor <;> decide

/-! ## The variable each accessor reads -/

/-- The integer accessor depends on the world through its own variable only. -/
theorem int_get_congr (p : OFI_NCCL_PARAM_INT) (w w1 : World) (c : IntCell)
    (h : w.getenv p.key = w1.getenv p.key) : p.get w c = p.get w1 c := by
  simp only [OFI_NCCL_PARAM_INT.get, OFI_NCCL_PARAM_INT.locked, h]

/-- The string accessor depends on the world through its own variable and the
heap only. -/
theorem str_get_congr (p : OFI_NCCL_PARAM_STR) (w w1 : World) (c : StrCell)
    (h : w.getenv p.key = w1.getenv p.key) (hh : w.heap_ok = w1.heap_ok) :
    p.get w c = p.get w1 c := by
  simp only [OFI_NCCL_PARAM_STR.get, OFI_NCCL_PARAM_STR.locked, h, hh]

theorem int_first_lookups (p : OFI_NCCL_PARAM_INT) (w : World) :
    (p.get w p.init).map (fun o => lookups o.trace) = some [p.key] := by
  obtain ⟨o, ds, ho, htr, hds⟩ := int_first_trace p w
  rw [ho]
  simp only [Option.map_some', htr, (trace_counts p.key ds hds).1]

theorem str_first_lookups (p : OFI_NCCL_PARAM_STR) (w : World) :
    (p.get w p.init).map (fun o => lookups o.trace) = some [p.key] := by
  obtain ⟨o, ds, ho, htr, hds⟩ := str_first_trace p w
  rw [ho]
  simp only [Option.map_some', htr, (trace_counts p.key ds hds).1]

theorem setenv_other (env : String → Option String) (k key val : String) (h : key ≠ k) :
    setenv env k val key = env key := by
  simp [setenv, h]

/-- C17: for each of the seven declared parameters the suffix is the upper-cased
form of the name, the one variable the first call looks up is `OFI_NCCL_`
followed by that suffix, the call depends on the environment through that
variable only, and setting the variable spelled with the name in lower case
(any value) changes nothing of the call. -/
theorem declared_variable_names :
    declared_int.length + declared_str.length = 7 ∧
    (∀ p ∈ declared_int,
      p.env = upper p.name ∧ p.key = "OFI_NCCL_" ++ upper p.name ∧
      (∀ w : World, (p.get w p.init).map (fun o => lookups o.trace) =
        some ["OFI_NCCL_" ++ upper p.name]) ∧
      (∀ w w1 : World, w.getenv ("OFI_NCCL_" ++ upper p.name) =
          w1.getenv ("OFI_NCCL_" ++ upper p.name) → p.get w p.init = p.get w1 p.init) ∧
      (∀ (w : World) (val : String),
        p.get ⟨setenv w.getenv ("OFI_NCCL_" ++ p.name) val, w.heap_ok⟩ p.init =
          p.get w p.init)) ∧
    (∀ p ∈ declared_str,
      p.env = upper p.name ∧ p.key = "OFI_NCCL_" ++ upper p.name ∧
      (∀ w : World, (p.get w p.init).map (fun o => lookups o.trace) =
        some ["OFI_NCCL_" ++ upper p.name]) ∧
      (∀ w w1 : World, w.getenv ("OFI_NCCL_" ++ upper p.name) =
          w1.getenv ("OFI_NCCL_" ++ upper p.name) → w.heap_ok = w1.heap_ok →
        p.get w p.init = p.get w1 p.init) ∧
      (∀ (w : World) (val : String),
        p.get ⟨setenv w.getenv ("OFI_NCCL_" ++ p.name) val, w.heap_ok⟩ p.init =
          p.get w p.init)) := by
  have hint : ∀ p : OFI_NCCL_PARAM_INT, p.env = upper p.name →
      p.key ≠ "OFI_NCCL_" ++ p.name →
      p.env = upper p.name ∧ p.key = "OFI_NCCL_" ++ upper p.name ∧
      (∀ w : World, (p.get w p.init).map (fun o => lookups o.trace) =
        some ["OFI_NCCL_" ++ upper p.name]) ∧
      (∀ w w1 : World, w.getenv ("OFI_NCCL_" ++ upper p.name) =
          w1.getenv ("OFI_NCCL_" ++ upper p.name) → p.get w p.init = p.get w1 p.init) ∧
      (∀ (w : World) (val : String),
        p.get ⟨setenv w.getenv ("OFI_NCCL_" ++ p.name) val, w.heap_ok⟩ p.init =
          p.get w p.init) := by
    intro p hu hk
    have hkey : p.key = "OFI_NCCL_" ++ upper p.name := by
      rw [← hu]
      rfl
    refine ⟨hu, hkey, ?_, ?_, ?_⟩
    · intro w
      rw [← hkey]
      exact int_first_lookups p w
    · intro w w1 h
      rw [← hkey] at h
      exact int_get_congr p w w1 _ h
    · intro w val
      exact int_get_congr p _ w _ (setenv_other w.getenv _ p.key val hk)
  have hstr : ∀ p : OFI_NCCL_PARAM_STR, p.env = upper p.name →
      p.key ≠ "OFI_NCCL_" ++ p.name →
      p.env = upper p.name ∧ p.key = "OFI_NCCL_" ++ upper p.name ∧
      (∀ w : World, (p.get w p.init).map (fun o => lookups o.trace) =
        some ["OFI_NCCL_" ++ upper p.name]) ∧
      (∀ w w1 : World, w.getenv ("OFI_NCCL_" ++ upper p.name) =
          w1.getenv ("OFI_NCCL_" ++ upper p.name) → w.heap_ok = w1.heap_ok →
        p.get w p.init = p.get w1 p.init) ∧
      (∀ (w : World) (val : String),
        p.get ⟨setenv w.getenv ("OFI_NCCL_" ++ p.name) val, w.heap_ok⟩ p.init =
          p.get w p.init) := by
    intro p hu hk
    have hkey : p.key = "OFI_NCCL_" ++ upper p.name := by
      rw [← hu]
      rfl
    refine ⟨hu, hkey, ?_, ?_, ?_⟩
    · intro w
      rw [← hkey]
      exact str_first_lookups p w
    · intro w w1 h hh
      rw [← hkey] at h
      exact str_get_congr p w w1 _ h hh
    · intro w val
      exact str_get_congr p _ w _ (setenv_other w.getenv _ p.key val hk) rfl
  refine ⟨rfl, ?_, ?_⟩
  · intro p hp
    simp only [declared_int, List.mem_cons, List.mem_singleton, List.not_mem_nil,
      or_false] at hp
    rcases hp with rfl | rfl | rfl | rfl | rfl | rfl <;> exact hint _ (by decide) (by decide)
  · intro p hp
    simp only [declared_str, List.mem_singleton] at hp
    subst hp
    exact hstr _ (by decide) (by decide)

/-- The variable in lower case is not read: with only
`OFI_NCCL_cq_read_count="8"` set, `ofi_nccl_cq_read_count()` returns 4, and
the one lookup is that of `OFI_NCCL_CQ_READ_COUNT`. -/
theorem cq_read_count_lower_case :
    (ofi_nccl_cq_read_count ⟨env1 "OFI_NCCL_cq_read_count" "8", true⟩
        cq_read_count.init).map (fun o => (o.ret, lookups o.trace, diagnostics o.trace)) =
      some (4, ["OFI_NCCL_CQ_READ_COUNT"], []) := by
  decide

end OfiNcclParam
